import Mathlib

/-!
Verification of the ytm LAN-jukebox networking layer (src/ytm_cli/net.py)
and mpv IPC bridge (src/ytm_cli/player.py), shallowly embedded in Lean.

Python values travelling over the wire are JSON values; we embed them as
the inductive type `Json` below.  JSON numbers are embedded as integers:
every frame any claim touches carries integer numerics, and floating
point is outside the scope of this embedding (fractional or exponent
number syntax makes the embedded parser return `none`).
Python `str` is embedded as `List Char` (Unicode scalar values), and
`bytes` as `List Nat` (each element < 256).
-/

/-- Embedded JSON values.  Objects are association lists in insertion
order, mirroring Python dicts (whose iteration order is insertion
order). -/
inductive Json where
  | null
  | bool (b : Bool)
  | num (n : Int)
  | str (s : List Char)
  | arr (elems : List Json)
  | obj (fields : List (List Char × Json))

mutual

/-- Structural equality test on embedded JSON values. -/
def jeq : Json → Json → Bool
  | .null, .null => true
  | .bool a, .bool b => a == b
  | .num a, .num b => a == b
  | .str a, .str b => a == b
  | .arr a, .arr b => jeqList a b
  | .obj a, .obj b => jeqFields a b
  | _, _ => false

/-- Elementwise equality of JSON lists. -/
def jeqList : List Json → List Json → Bool
  | [], [] => true
  | x :: xs, y :: ys => jeq x y && jeqList xs ys
  | _, _ => false

/-- Elementwise equality of JSON field lists. -/
def jeqFields : List (List Char × Json) → List (List Char × Json) → Bool
  | [], [] => true
  | (k, v) :: ps, (l, w) :: qs => k == l && jeq v w && jeqFields ps qs
  | _, _ => false

end

mutual

theorem jeq_iff : ∀ (a b : Json), jeq a b = true ↔ a = b
  | .null, b => by cases b <;> simp [jeq]
  | .bool x, b => by cases b <;> simp [jeq]
  | .num x, b => by cases b <;> simp [jeq]
  | .str x, b => by cases b <;> simp [jeq]
  | .arr xs, b => by
      cases b <;> simp [jeq]
      exact jeqList_iff xs _
  | .obj ps, b => by
      cases b <;> simp [jeq]
      exact jeqFields_iff ps _

theorem jeqList_iff : ∀ (xs ys : List Json), jeqList xs ys = true ↔ xs = ys
  | [], ys => by cases ys <;> simp [jeqList]
  | x :: xs, ys => by
      cases ys with
      | nil => simp [jeqList]
      | cons y ys =>
          simp [jeqList, Bool.and_eq_true, jeq_iff x y, jeqList_iff xs ys]

theorem jeqFields_iff :
    ∀ (ps qs : List (List Char × Json)), jeqFields ps qs = true ↔ ps = qs
  | [], qs => by cases qs <;> simp [jeqFields]
  | (k, v) :: ps, qs => by
      cases qs with
      | nil => simp [jeqFields]
      | cons q qs =>
          obtain ⟨l, w⟩ := q
          simp [jeqFields, Bool.and_eq_true, jeq_iff v w, jeqFields_iff ps qs,
            Prod.ext_iff, and_assoc]

end

instance : DecidableEq Json := fun a b => decidable_of_iff _ (jeq_iff a b)

/-- Key lookup in an embedded object, first match (hand-built and parsed
objects never carry duplicate keys; the parser collapses duplicates the
way Python dict construction does). -/
def assocGet : List (List Char × Json) → List Char → Option Json
  | [], _ => none
  | (k, v) :: rest, key => if k = key then some v else assocGet rest key

/-- Python dict membership test (the `in` operator): key presence,
regardless of the stored value. -/
def hasKey (fields : List (List Char × Json)) (key : List Char) : Bool :=
  (assocGet fields key).isSome

/-- Python `isinstance(x, dict)` on an embedded JSON value. -/
def isDict : Json → Bool
  | .obj _ => true
  | _ => false

/-- Python truthiness of a JSON-representable value: `None`, `False`,
`0`, `0.0`, `""`, `[]`, `{}` are falsy, everything else truthy. -/
def pyTruthy : Json → Bool
  | .null => false
  | .bool b => b
  | .num n => n != 0
  | .str s => !s.isEmpty
  | .arr xs => !xs.isEmpty
  | .obj kvs => !kvs.isEmpty

-- ── json.dumps with separators=(",", ":"), ensure_ascii=True ─────────

/-- Lowercase hexadecimal digit, as produced by Python
`'\\u\x7b0:04x\x7d'.format`. -/
def hexDigit (n : Nat) : Char :=
  if n < 10 then Char.ofNat (48 + n) else Char.ofNat (87 + n)

/-- Four lowercase hex digits of `n < 0x10000`. -/
def hex4 (n : Nat) : List Char :=
  [hexDigit (n / 4096 % 16), hexDigit (n / 256 % 16),
   hexDigit (n / 16 % 16), hexDigit (n % 16)]

/-- Escaping of one character by `json.dumps` with the default
`ensure_ascii=True` (CPython `py_encode_basestring_ascii`): quote and
backslash escaped, the five shorthand control escapes, every other
character outside printable ASCII 0x20..0x7e rendered as `\uXXXX`
(a surrogate pair for astral characters). -/
def escapeChar (c : Char) : List Char :=
  if c = '"' then ['\\', '"']
  else if c = '\\' then ['\\', '\\']
  else if c.toNat = 8 then ['\\', 'b']
  else if c.toNat = 12 then ['\\', 'f']
  else if c.toNat = 10 then ['\\', 'n']
  else if c.toNat = 13 then ['\\', 'r']
  else if c.toNat = 9 then ['\\', 't']
  else if 0x20 ≤ c.toNat ∧ c.toNat ≤ 0x7e then [c]
  else if c.toNat < 0x10000 then '\\' :: 'u' :: hex4 c.toNat
  else
    ('\\' :: 'u' :: hex4 (0xd800 + (c.toNat - 0x10000) / 0x400)) ++
    ('\\' :: 'u' :: hex4 (0xdc00 + (c.toNat - 0x10000) % 0x400))

/-- String body escaping of `json.dumps`. -/
def escapeStr : List Char → List Char
  | [] => []
  | c :: rest => escapeChar c ++ escapeStr rest

/-- Decimal digits of a natural number (most significant first). -/
def natDigits (n : Nat) : List Char :=
  if h : n < 10 then [Char.ofNat (48 + n)]
  else natDigits (n / 10) ++ [Char.ofNat (48 + n % 10)]
decreasing_by exact Nat.div_lt_self (by omega) (by omega)

/-- Decimal rendering of an integer, as Python `repr`/`json.dumps`
render an `int`. -/
def dumpInt (n : Int) : List Char :=
  if n < 0 then '-' :: natDigits n.natAbs else natDigits n.natAbs

mutual

/-- Embedding of `json.dumps(v, separators=(",", ":"))`
(src/ytm_cli/net.py line 18): compact serialization, ASCII-only. -/
def dumps : Json → List Char
  | .null => "null".data
  | .bool true => "true".data
  | .bool false => "false".data
  | .num n => dumpInt n
  | .str s => '"' :: escapeStr s ++ ['"']
  | .arr xs => '[' :: dumpsItems xs ++ [']']
  | .obj kvs => Char.ofNat 123 :: dumpsFields kvs ++ [Char.ofNat 125]

/-- Comma-joined serialization of array items. -/
def dumpsItems : List Json → List Char
  | [] => []
  | [x] => dumps x
  | x :: y :: rest => dumps x ++ ',' :: dumpsItems (y :: rest)

/-- Comma-joined serialization of object fields (`"key":value`). -/
def dumpsFields : List (List Char × Json) → List Char
  | [] => []
  | [(k, v)] => '"' :: escapeStr k ++ '"' :: ':' :: dumps v
  | (k, v) :: f :: rest =>
      '"' :: escapeStr k ++ '"' :: ':' :: dumps v ++ ',' :: dumpsFields (f :: rest)

end

-- ── UTF-8 (str.encode / bytes.decode) ────────────────────────────────

/-- UTF-8 encoding of one Unicode scalar value. -/
def utf8EncodeChar (c : Char) : List Nat :=
  let n := c.toNat
  if n < 0x80 then [n]
  else if n < 0x800 then [0xc0 + n / 0x40, 0x80 + n % 0x40]
  else if n < 0x10000 then
    [0xe0 + n / 0x1000, 0x80 + n / 0x40 % 0x40, 0x80 + n % 0x40]
  else
    [0xf0 + n / 0x40000, 0x80 + n / 0x1000 % 0x40,
     0x80 + n / 0x40 % 0x40, 0x80 + n % 0x40]

/-- Embedding of Python `str.encode()` (UTF-8). -/
def utf8Encode : List Char → List Nat
  | [] => []
  | c :: rest => utf8EncodeChar c ++ utf8Encode rest

/-- One UTF-8 scalar: given the lead byte and the following bytes,
returns the decoded character and how many continuation bytes were
consumed.  Rejects invalid lead/continuation bytes, overlong forms,
surrogate code points and values above 0x10FFFF (all of which raise
`UnicodeDecodeError` in the source). -/
def utf8Step (b : Nat) (rest : List Nat) : Option (Char × Nat) :=
  if b < 0x80 then some (Char.ofNat b, 0)
  else if b < 0xc2 then none
  else if b < 0xe0 then
    match rest with
    | b2 :: _ =>
      if 0x80 ≤ b2 ∧ b2 < 0xc0 then
        some (Char.ofNat ((b - 0xc0) * 0x40 + (b2 - 0x80)), 1)
      else none
    | [] => none
  else if b < 0xf0 then
    match rest with
    | b2 :: b3 :: _ =>
      if 0x80 ≤ b2 ∧ b2 < 0xc0 ∧ 0x80 ≤ b3 ∧ b3 < 0xc0 then
        let n := (b - 0xe0) * 0x1000 + (b2 - 0x80) * 0x40 + (b3 - 0x80)
        if 0x800 ≤ n ∧ ¬(0xd800 ≤ n ∧ n ≤ 0xdfff) then some (Char.ofNat n, 2)
        else none
      else none
    | _ => none
  else if b < 0xf5 then
    match rest with
    | b2 :: b3 :: b4 :: _ =>
      if 0x80 ≤ b2 ∧ b2 < 0xc0 ∧ 0x80 ≤ b3 ∧ b3 < 0xc0 ∧ 0x80 ≤ b4 ∧ b4 < 0xc0 then
        let n := (b - 0xf0) * 0x40000 + (b2 - 0x80) * 0x1000 +
                 (b3 - 0x80) * 0x40 + (b4 - 0x80)
        if 0x10000 ≤ n ∧ n ≤ 0x10ffff then some (Char.ofNat n, 3)
        else none
      else none
    | _ => none
  else none

/-- Decode loop of `bytes.decode()`: one scalar per step via
`utf8Step`.  `fuel` bounds the number of steps; each step consumes at
least one byte, so `utf8Decode` below supplies the byte count as ample
fuel (the zero-fuel case on a nonempty input is unreachable from the
wrapper). -/
def utf8DecodeLoop : Nat → List Nat → Option (List Char)
  | _, [] => some []
  | 0, _ :: _ => none
  | fuel + 1, b :: rest =>
    match utf8Step b rest with
    | none => none
    | some (c, k) => (utf8DecodeLoop fuel (rest.drop k)).map (c :: ·)

/-- Embedding of Python `bytes.decode()`: strict UTF-8. -/
def utf8Decode (bs : List Nat) : Option (List Char) :=
  utf8DecodeLoop bs.length bs

-- ── json.loads ───────────────────────────────────────────────────────

/-- JSON insignificant whitespace (Python json `_w` regex: space, tab,
newline, carriage return). -/
def isJsonWs (c : Char) : Bool :=
  c = ' ' ∨ c = '\t' ∨ c = '\n' ∨ c = '\r'

/-- Skip insignificant whitespace. -/
def skipWs : List Char → List Char
  | [] => []
  | c :: rest => if isJsonWs c then skipWs rest else c :: rest

/-- Value of one hexadecimal digit (both cases accepted, as in Python
json `\\uXXXX` escapes). -/
def hexVal (c : Char) : Option Nat :=
  if 48 ≤ c.toNat ∧ c.toNat ≤ 57 then some (c.toNat - 48)
  else if 97 ≤ c.toNat ∧ c.toNat ≤ 102 then some (c.toNat - 87)
  else if 65 ≤ c.toNat ∧ c.toNat ≤ 70 then some (c.toNat - 55)
  else none

/-- One escape sequence after the backslash (CPython `py_scanstring`,
strict mode): the eight simple escapes and `\\uXXXX`, with
surrogate-pair combination.  Returns the decoded character together
with how many further input characters the escape consumed beyond the
escape letter itself (0 for simple escapes, 4 for `\\uXXXX`, 10 for a
surrogate pair).  (Divergence from the source, documented: CPython
keeps a lone surrogate as an unpaired code point, which a Lean `Char`
cannot carry, so this embedding rejects lone surrogates; no claim
exercises such input.) -/
def unescape (e : Char) (rest : List Char) : Option (Char × Nat) :=
  match e with
  | '"' => some ('"', 0)
  | '\\' => some ('\\', 0)
  | '/' => some ('/', 0)
  | 'b' => some (Char.ofNat 8, 0)
  | 'f' => some (Char.ofNat 12, 0)
  | 'n' => some ('\n', 0)
  | 'r' => some (Char.ofNat 13, 0)
  | 't' => some ('\t', 0)
  | 'u' =>
    match rest with
    | c1 :: c2 :: c3 :: c4 :: rest3 =>
      match hexVal c1, hexVal c2, hexVal c3, hexVal c4 with
      | some d1, some d2, some d3, some d4 =>
        let n := ((d1 * 16 + d2) * 16 + d3) * 16 + d4
        if 0xd800 ≤ n ∧ n ≤ 0xdbff then
          match rest3 with
          | b1 :: b2 :: c5 :: c6 :: c7 :: c8 :: _ =>
            if b1 = '\\' ∧ b2 = 'u' then
              match hexVal c5, hexVal c6, hexVal c7, hexVal c8 with
              | some e1, some e2, some e3, some e4 =>
                let m := ((e1 * 16 + e2) * 16 + e3) * 16 + e4
                if 0xdc00 ≤ m ∧ m ≤ 0xdfff then
                  some (Char.ofNat (0x10000 + (n - 0xd800) * 0x400 + (m - 0xdc00)), 10)
                else none
              | _, _, _, _ => none
            else none
          | _ => none
        else if 0xdc00 ≤ n ∧ n ≤ 0xdfff then none
        else some (Char.ofNat n, 4)
      | _, _, _, _ => none
    | _ => none
  | _ => none

/-- JSON string body scanner, entered after the opening quote; returns
the decoded content and the input remaining after the closing quote.
Unescaped control characters and unknown escapes are rejected
(`strict=True`, the `json.loads` default). -/
def parseStr (s : List Char) : Option (List Char × List Char) :=
  match s with
  | [] => none
  | c :: rest =>
    if c = '"' then some ([], rest)
    else if c = '\\' then
      match rest with
      | [] => none
      | e :: rest1 =>
        match unescape e rest1 with
        | none => none
        | some (d, k) =>
          (parseStr (rest1.drop k)).map (fun p => (d :: p.1, p.2))
    else if c.toNat < 0x20 then none
    else (parseStr rest).map (fun p => (c :: p.1, p.2))
termination_by s.length
decreasing_by
  · simp [List.length_drop]
    omega
  · simp

/-- Longest prefix of decimal digits. -/
def takeDigits : List Char → List Char × List Char
  | [] => ([], [])
  | c :: rest =>
    if c.isDigit then
      let p := takeDigits rest
      (c :: p.1, p.2)
    else ([], c :: rest)

/-- Natural number denoted by a digit list. -/
def digitsToNat (ds : List Char) : Nat :=
  ds.foldl (fun a c => a * 10 + (c.toNat - 48)) 0

/-- JSON number scanner (Python json `NUMBER_RE`): optional minus, then
`0` or a nonzero-led digit run.  Fractional and exponent parts denote
floats, which are outside this embedding, so they make the scanner
return `none` (the source would build a Python float; no claim
exercises non-integer frames). -/
def parseNum (s : List Char) : Option (Json × List Char) :=
  let signed : Bool × List Char :=
    if s.head? = some '-' then (true, s.tail) else (false, s)
  match signed.2 with
  | [] => none
  | c :: cs =>
    if c.isDigit then
      let p : List Char × List Char :=
        if c = '0' then (['0'], cs) else takeDigits (c :: cs)
      if p.2.head? = some '.' ∨ p.2.head? = some 'e' ∨ p.2.head? = some 'E' then
        none
      else
        let n : Int := (digitsToNat p.1 : Int)
        some (.num (if signed.1 then -n else n), p.2)
    else none

/-- Python dict insertion (`d[k] = v` while building an object): an
existing key keeps its position and takes the new value, a fresh key is
appended.  This is how duplicate keys collapse in `json.loads`. -/
def addField : List (List Char × Json) → List Char → Json → List (List Char × Json)
  | [], k, v => [(k, v)]
  | (k0, v0) :: rest, k, v =>
      if k0 = k then (k0, v) :: rest else (k0, v0) :: addField rest k v

mutual

/-- Recursive-descent JSON value scanner, the embedding of CPython's
json scanner as invoked by `json.loads`.  `fuel` bounds the recursion
depth; `json_loads` supplies fuel ample for any input (every recursive
call strictly consumes input, see the round-trip development below). -/
def parseValue : Nat → List Char → Option (Json × List Char)
  | 0, _ => none
  | fuel + 1, s =>
    match skipWs s with
    | [] => none
    | c :: rest =>
      if c = 'n' then
        match rest with
        | 'u' :: 'l' :: 'l' :: r => some (.null, r)
        | _ => none
      else if c = 't' then
        match rest with
        | 'r' :: 'u' :: 'e' :: r => some (.bool true, r)
        | _ => none
      else if c = 'f' then
        match rest with
        | 'a' :: 'l' :: 's' :: 'e' :: r => some (.bool false, r)
        | _ => none
      else if c = '"' then (parseStr rest).map (fun p => (.str p.1, p.2))
      else if c = '[' then
        match skipWs rest with
        | ']' :: r => some (.arr [], r)
        | s2 => parseElems fuel s2 []
      else if c = Char.ofNat 123 then
        match skipWs rest with
        | [] => none
        | d :: r1 =>
          if d = Char.ofNat 125 then some (.obj [], r1)
          else parseFields fuel (d :: r1) []
      else parseNum (c :: rest)

/-- Array items: value, then `,` to continue or `]` to finish. -/
def parseElems : Nat → List Char → List Json → Option (Json × List Char)
  | 0, _, _ => none
  | fuel + 1, s, acc =>
    match parseValue fuel s with
    | none => none
    | some (v, r) =>
      match skipWs r with
      | [] => none
      | c :: r2 =>
        if c = ',' then parseElems fuel r2 (acc ++ [v])
        else if c = ']' then some (.arr (acc ++ [v]), r2)
        else none

/-- Object fields: string key, `:`, value, then `,` to continue or a
closing brace to finish; fields accumulate by Python dict insertion. -/
def parseFields : Nat → List Char → List (List Char × Json) →
    Option (Json × List Char)
  | 0, _, _ => none
  | fuel + 1, s, acc =>
    match skipWs s with
    | [] => none
    | c0 :: r =>
      if c0 = '"' then
        match parseStr r with
        | none => none
        | some (k, r2) =>
          match skipWs r2 with
          | [] => none
          | c1 :: r3 =>
            if c1 = ':' then
              match parseValue fuel r3 with
              | none => none
              | some (v, r4) =>
                match skipWs r4 with
                | [] => none
                | c2 :: r5 =>
                  if c2 = ',' then parseFields fuel r5 (addField acc k v)
                  else if c2 = Char.ofNat 125 then
                    some (.obj (addField acc k v), r5)
                  else none
            else none
      else none

end

/-- Embedding of `json.loads`: scan one value, then require only
whitespace to follow (otherwise CPython raises "Extra data", which the
caller `read_msg` collapses to `None` along with every other decode
error).  Fuel `2 * length + 1` is ample: parsing maintains the
invariant that the remaining input is shorter than half the fuel. -/
def json_loads (s : List Char) : Option Json :=
  match parseValue (2 * s.length + 1) s with
  | some (j, rest) => if (skipWs rest).isEmpty then some j else none
  | none => none

-- ── Framing (src/ytm_cli/net.py lines 16-32) ─────────────────────────

/-- Embedding of `encode_msg` (net.py lines 16-18): compact JSON, one
trailing newline, UTF-8 encoded. -/
def encode_msg (msg : Json) : List Nat :=
  utf8Encode (dumps msg ++ ['\n'])

/-- Outcome of the awaited `reader.readline()` inside `read_msg`
(net.py lines 23-28): the 30-second timeout, a connection error, any
other OS error, or a delivered line (empty exactly at EOF). -/
inductive ReadOutcome where
  | timeout
  | connError
  | osError
  | line (bs : List Nat)

/-- Embedding of `read_msg` (net.py lines 21-32).  Total: the source
catches `asyncio.TimeoutError`, `ConnectionError`, `OSError` around the
read and `json.JSONDecodeError`, `UnicodeDecodeError` around the
decode, returning `None` in every such case. -/
def read_msg : ReadOutcome → Option Json
  | .timeout => none
  | .connError => none
  | .osError => none
  | .line bs =>
    if bs.isEmpty then none
    else
      match utf8Decode bs with
      | none => none
      | some cs => json_loads cs

-- ── Character facts used by the round-trip development ───────────────

theorem char_toNat_ofNat (n : Nat) (h : n.isValidChar) :
    (Char.ofNat n).toNat = n := by
  rw [Char.ofNat, dif_pos h]
  rfl

theorem char_valid (c : Char) : Nat.isValidChar c.toNat := by
  rcases c.valid with h | ⟨h1, h2⟩
  · exact Or.inl h
  · exact Or.inr ⟨h1, h2⟩

theorem char_toNat_lt (c : Char) : c.toNat < 0x110000 := by
  rcases char_valid c with h | ⟨_, h⟩
  · omega
  · omega

theorem char_not_surrogate (c : Char) :
    ¬(0xd800 ≤ c.toNat ∧ c.toNat ≤ 0xdfff) := by
  rcases char_valid c with h | ⟨h, _⟩
  · omega
  · omega

theorem char_toNat_inj {a b : Char} (h : a.toNat = b.toNat) : a = b := by
  have := congrArg Char.ofNat h
  rwa [Char.ofNat_toNat, Char.ofNat_toNat] at this

theorem char_eq_iff_toNat {a b : Char} : a = b ↔ a.toNat = b.toNat :=
  ⟨fun h => h ▸ rfl, char_toNat_inj⟩

theorem isJsonWs_false {c : Char} (h : 32 < c.toNat) : isJsonWs c = false := by
  have h1 : c ≠ ' ' := fun he => by
    rw [char_eq_iff_toNat] at he; simp at he; omega
  have h2 : c ≠ '\t' := fun he => by
    rw [char_eq_iff_toNat] at he; simp at he; omega
  have h3 : c ≠ '\n' := fun he => by
    rw [char_eq_iff_toNat] at he; simp at he; omega
  have h4 : c ≠ '\r' := fun he => by
    rw [char_eq_iff_toNat] at he; simp at he; omega
  simp [isJsonWs, h1, h2, h3, h4]

theorem skipWs_cons {c : Char} (r : List Char) (h : isJsonWs c = false) :
    skipWs (c :: r) = c :: r := by
  simp [skipWs, h]

theorem hexVal_hexDigit {d : Nat} (h : d < 16) : hexVal (hexDigit d) = some d := by
  unfold hexDigit hexVal
  by_cases h10 : d < 10
  · rw [if_pos h10]
    rw [char_toNat_ofNat _ (Or.inl (by omega))]
    rw [if_pos (by omega)]
    congr 1
    omega
  · rw [if_neg h10]
    rw [char_toNat_ofNat _ (Or.inl (by omega))]
    rw [if_neg (by omega), if_pos (by omega)]
    congr 1
    omega

theorem hex_reconstruct {n : Nat} (h : n < 0x10000) :
    ((n / 4096 % 16 * 16 + n / 256 % 16) * 16 + n / 16 % 16) * 16 + n % 16 = n := by
  omega


theorem parseStr_nil : parseStr [] = none := by
  rw [parseStr.eq_def]

theorem parseStr_quote (r : List Char) : parseStr ('"' :: r) = some ([], r) := by
  rw [parseStr.eq_def]
  simp

theorem parseStr_esc (e : Char) (r : List Char) (d : Char) (k : Nat)
    (h : unescape e r = some (d, k)) :
    parseStr ('\\' :: e :: r) =
      (parseStr (r.drop k)).map (fun p => (d :: p.1, p.2)) := by
  rw [parseStr]
  simp [h]

theorem parseStr_lit (c : Char) (r : List Char) (h1 : c ≠ '"') (h2 : c ≠ '\\')
    (h3 : 0x20 ≤ c.toNat) :
    parseStr (c :: r) = (parseStr r).map (fun p => (c :: p.1, p.2)) := by
  rw [parseStr.eq_def]
  simp [h1, h2]
  omega

theorem unescape_u_bmp {n : Nat} (r : List Char) (hn : n < 0x10000)
    (hs : ¬(0xd800 ≤ n ∧ n ≤ 0xdfff)) :
    unescape 'u' (hex4 n ++ r) = some (Char.ofNat n, 4) := by
  simp only [unescape, hex4, List.cons_append, List.nil_append,
    hexVal_hexDigit (show n / 4096 % 16 < 16 from Nat.mod_lt _ (by omega)),
    hexVal_hexDigit (show n / 256 % 16 < 16 from Nat.mod_lt _ (by omega)),
    hexVal_hexDigit (show n / 16 % 16 < 16 from Nat.mod_lt _ (by omega)),
    hexVal_hexDigit (show n % 16 < 16 from Nat.mod_lt _ (by omega))]
  simp only [hex_reconstruct hn]
  rw [if_neg (by omega), if_neg (by omega)]

theorem unescape_u_pair (hi lo : Nat) (r : List Char)
    (hhi : 0xd800 ≤ hi ∧ hi ≤ 0xdbff) (hlo : 0xdc00 ≤ lo ∧ lo ≤ 0xdfff) :
    unescape 'u' (hex4 hi ++ ('\\' :: 'u' :: hex4 lo ++ r)) =
      some (Char.ofNat (0x10000 + (hi - 0xd800) * 0x400 + (lo - 0xdc00)), 10) := by
  simp only [unescape, hex4, List.cons_append, List.nil_append,
    hexVal_hexDigit (show hi / 4096 % 16 < 16 from Nat.mod_lt _ (by omega)),
    hexVal_hexDigit (show hi / 256 % 16 < 16 from Nat.mod_lt _ (by omega)),
    hexVal_hexDigit (show hi / 16 % 16 < 16 from Nat.mod_lt _ (by omega)),
    hexVal_hexDigit (show hi % 16 < 16 from Nat.mod_lt _ (by omega)),
    hexVal_hexDigit (show lo / 4096 % 16 < 16 from Nat.mod_lt _ (by omega)),
    hexVal_hexDigit (show lo / 256 % 16 < 16 from Nat.mod_lt _ (by omega)),
    hexVal_hexDigit (show lo / 16 % 16 < 16 from Nat.mod_lt _ (by omega)),
    hexVal_hexDigit (show lo % 16 < 16 from Nat.mod_lt _ (by omega))]
  simp only [hex_reconstruct (show hi < 0x10000 by omega),
    hex_reconstruct (show lo < 0x10000 by omega)]
  rw [if_pos (by omega), if_pos ⟨trivial, trivial⟩, if_pos (by omega)]

theorem parseStr_escapeChar (c : Char) (rest : List Char) :
    parseStr (escapeChar c ++ rest) =
      (parseStr rest).map (fun p => (c :: p.1, p.2)) := by
  by_cases hq : c = '"'
  · subst hq
    rw [show escapeChar '"' = ['\\', '"'] from rfl]
    rw [List.cons_append, List.cons_append, List.nil_append]
    rw [parseStr_esc _ _ _ _ (show unescape '"' rest = some ('"', 0) from rfl)]
    simp
  by_cases hb : c = '\\'
  · subst hb
    rw [show escapeChar '\\' = ['\\', '\\'] from rfl]
    rw [List.cons_append, List.cons_append, List.nil_append]
    rw [parseStr_esc _ _ _ _ (show unescape '\\' rest = some ('\\', 0) from rfl)]
    simp
  by_cases h8 : c.toNat = 8
  · have hc : c = Char.ofNat 8 := by
      rw [char_eq_iff_toNat, h8, char_toNat_ofNat _ (Or.inl (by omega))]
    subst hc
    rw [show escapeChar (Char.ofNat 8) = ['\\', 'b'] from rfl]
    rw [List.cons_append, List.cons_append, List.nil_append]
    rw [parseStr_esc _ _ _ _ (show unescape 'b' rest = some (Char.ofNat 8, 0) from rfl)]
    simp
  by_cases h12 : c.toNat = 12
  · have hc : c = Char.ofNat 12 := by
      rw [char_eq_iff_toNat, h12, char_toNat_ofNat _ (Or.inl (by omega))]
    subst hc
    rw [show escapeChar (Char.ofNat 12) = ['\\', 'f'] from rfl]
    rw [List.cons_append, List.cons_append, List.nil_append]
    rw [parseStr_esc _ _ _ _ (show unescape 'f' rest = some (Char.ofNat 12, 0) from rfl)]
    simp
  by_cases h10 : c.toNat = 10
  · have hc : c = '\n' := by rw [char_eq_iff_toNat, h10]; rfl
    subst hc
    rw [show escapeChar '\n' = ['\\', 'n'] from rfl]
    rw [List.cons_append, List.cons_append, List.nil_append]
    rw [parseStr_esc _ _ _ _ (show unescape 'n' rest = some ('\n', 0) from rfl)]
    simp
  by_cases h13 : c.toNat = 13
  · have hc : c = Char.ofNat 13 := by
      rw [char_eq_iff_toNat, h13, char_toNat_ofNat _ (Or.inl (by omega))]
    subst hc
    rw [show escapeChar (Char.ofNat 13) = ['\\', 'r'] from rfl]
    rw [List.cons_append, List.cons_append, List.nil_append]
    rw [parseStr_esc _ _ _ _ (show unescape 'r' rest = some (Char.ofNat 13, 0) from rfl)]
    simp
  by_cases h9 : c.toNat = 9
  · have hc : c = '\t' := by rw [char_eq_iff_toNat, h9]; rfl
    subst hc
    rw [show escapeChar '\t' = ['\\', 't'] from rfl]
    rw [List.cons_append, List.cons_append, List.nil_append]
    rw [parseStr_esc _ _ _ _ (show unescape 't' rest = some ('\t', 0) from rfl)]
    simp
  by_cases hp : 0x20 ≤ c.toNat ∧ c.toNat ≤ 0x7e
  · have hesc : escapeChar c = [c] := by
      unfold escapeChar
      rw [if_neg hq, if_neg hb, if_neg h8, if_neg h12, if_neg h10, if_neg h13,
        if_neg h9, if_pos hp]
    rw [hesc, List.cons_append, List.nil_append]
    exact parseStr_lit c rest hq hb hp.1
  by_cases hbmp : c.toNat < 0x10000
  · have hesc : escapeChar c = '\\' :: 'u' :: hex4 c.toNat := by
      unfold escapeChar
      rw [if_neg hq, if_neg hb, if_neg h8, if_neg h12, if_neg h10, if_neg h13,
        if_neg h9, if_neg hp, if_pos hbmp]
    rw [hesc, List.cons_append, List.cons_append]
    rw [parseStr_esc _ _ _ _ (unescape_u_bmp rest hbmp (char_not_surrogate c))]
    rw [Char.ofNat_toNat]
    simp [hex4]
  · have hesc : escapeChar c =
        '\\' :: 'u' :: (hex4 (0xd800 + (c.toNat - 0x10000) / 0x400) ++
          ('\\' :: 'u' :: hex4 (0xdc00 + (c.toNat - 0x10000) % 0x400))) := by
      unfold escapeChar
      rw [if_neg hq, if_neg hb, if_neg h8, if_neg h12, if_neg h10, if_neg h13,
        if_neg h9, if_neg hp, if_neg hbmp]
      simp
    have hlt := char_toNat_lt c
    rw [hesc, List.cons_append, List.cons_append, List.append_assoc]
    rw [parseStr_esc _ _ _ _
      (unescape_u_pair (0xd800 + (c.toNat - 0x10000) / 0x400)
        (0xdc00 + (c.toNat - 0x10000) % 0x400) rest
        ⟨by omega, by omega⟩
        ⟨by omega, by
          have := Nat.mod_lt (c.toNat - 0x10000) (show 0 < 0x400 by omega)
          omega⟩)]
    have harith : 0x10000 +
        (0xd800 + (c.toNat - 0x10000) / 0x400 - 0xd800) * 0x400 +
        (0xdc00 + (c.toNat - 0x10000) % 0x400 - 0xdc00) = c.toNat := by omega
    rw [harith, Char.ofNat_toNat]
    simp [hex4]

theorem parseStr_escapeStr (s rest : List Char) :
    parseStr (escapeStr s ++ '"' :: rest) = some (s, rest) := by
  induction s with
  | nil =>
      rw [escapeStr, List.nil_append, parseStr_quote]
  | cons c cs ih =>
      rw [escapeStr, List.append_assoc, parseStr_escapeChar, ih]
      rfl

/-- What may legally follow a serialized integer so that the number
scanner stops exactly at the boundary: anything but a digit or a
fraction/exponent introducer. -/
def numFollowOk : List Char → Bool
  | [] => true
  | c :: _ => !(c.isDigit || c = '.' || c = 'e' || c = 'E')

theorem char_isDigit_iff (c : Char) :
    c.isDigit = true ↔ 48 ≤ c.toNat ∧ c.toNat ≤ 57 := by
  simp only [Char.isDigit, Bool.and_eq_true, decide_eq_true_eq, Char.le_def,
    UInt32.le_def, BitVec.le_def, Char.toNat, UInt32.toNat]
  exact Iff.rfl

theorem natDigits_digits (n : Nat) :
    ∀ c ∈ natDigits n, 48 ≤ c.toNat ∧ c.toNat ≤ 57 := by
  induction n using Nat.strong_induction_on with
  | _ n ih =>
    rw [natDigits.eq_def]
    by_cases h : n < 10
    · rw [dif_pos h]
      intro c hc
      simp at hc
      subst hc
      rw [char_toNat_ofNat _ (Or.inl (by omega))]
      omega
    · rw [dif_neg h]
      intro c hc
      rw [List.mem_append] at hc
      rcases hc with hc | hc
      · exact ih (n / 10) (Nat.div_lt_self (by omega) (by omega)) c hc
      · simp at hc
        subst hc
        rw [char_toNat_ofNat _ (Or.inl (by omega))]
        have := Nat.mod_lt n (show 0 < 10 by omega)
        omega

theorem natDigits_head (n : Nat) :
    ∃ c cs, natDigits n = c :: cs ∧ 48 ≤ c.toNat ∧ c.toNat ≤ 57 ∧
      (n ≠ 0 → c.toNat ≠ 48) := by
  induction n using Nat.strong_induction_on with
  | _ n ih =>
    rw [natDigits.eq_def]
    by_cases h : n < 10
    · rw [dif_pos h]
      refine ⟨Char.ofNat (48 + n), [], rfl, ?_, ?_, ?_⟩
      · rw [char_toNat_ofNat _ (Or.inl (by omega))]; omega
      · rw [char_toNat_ofNat _ (Or.inl (by omega))]; omega
      · intro hn
        rw [char_toNat_ofNat _ (Or.inl (by omega))]
        omega
    · rw [dif_neg h]
      obtain ⟨c, cs, heq, h1, h2, h3⟩ :=
        ih (n / 10) (Nat.div_lt_self (by omega) (by omega))
      refine ⟨c, cs ++ [Char.ofNat (48 + n % 10)], ?_, h1, h2, ?_⟩
      · rw [heq]; rfl
      · intro _
        exact h3 (by omega)

theorem digitsToNat_append_one (ds : List Char) (c : Char) :
    digitsToNat (ds ++ [c]) = digitsToNat ds * 10 + (c.toNat - 48) := by
  simp [digitsToNat, List.foldl_append]

theorem digitsToNat_natDigits (n : Nat) : digitsToNat (natDigits n) = n := by
  induction n using Nat.strong_induction_on with
  | _ n ih =>
    rw [natDigits.eq_def]
    by_cases h : n < 10
    · rw [dif_pos h]
      simp [digitsToNat]
      rw [char_toNat_ofNat _ (Or.inl (by omega))]
      omega
    · rw [dif_neg h]
      rw [digitsToNat_append_one,
        ih (n / 10) (Nat.div_lt_self (by omega) (by omega)),
        char_toNat_ofNat _ (Or.inl (by omega))]
      omega

theorem takeDigits_run (ds r : List Char)
    (hds : ∀ c ∈ ds, 48 ≤ c.toNat ∧ c.toNat ≤ 57)
    (hr : numFollowOk r = true) :
    takeDigits (ds ++ r) = (ds, r) := by
  induction ds with
  | nil =>
      rw [List.nil_append]
      cases r with
      | nil => rfl
      | cons c rest =>
          rw [takeDigits]
          have hcd : c.isDigit = false := by
            rw [numFollowOk] at hr
            simp at hr
            exact hr.1.1.1
          rw [hcd]
          simp
  | cons c cs ih =>
      rw [List.cons_append, takeDigits]
      have hc := hds c (by simp)
      rw [(char_isDigit_iff c).mpr hc]
      rw [ih (fun d hd => hds d (by simp [hd]))]
      simp


theorem numFollowOk_no_dot {r : List Char} (hr : numFollowOk r = true) :
    ¬(r.head? = some '.' ∨ r.head? = some 'e' ∨ r.head? = some 'E') := by
  cases r with
  | nil => simp
  | cons c rest =>
      rw [numFollowOk] at hr
      simp at hr
      simp
      tauto

theorem natDigits_zero : natDigits 0 = ['0'] := by
  rw [natDigits.eq_def]
  simp

theorem parseNum_zero (rest : List Char) (hrest : numFollowOk rest = true) :
    parseNum ('0' :: rest) = some (.num 0, rest) := by
  rw [parseNum]
  simp only [List.head?_cons, List.tail_cons]
  rw [if_neg (by simp)]
  simp only
  rw [if_pos (by decide)]
  simp only [if_true]
  rw [if_neg (numFollowOk_no_dot hrest)]
  simp [digitsToNat]

theorem char_digit_ne_minus {c : Char} (h : 48 ≤ c.toNat ∧ c.toNat ≤ 57) :
    c ≠ '-' := by
  intro he
  rw [char_eq_iff_toNat] at he
  simp at he
  omega

theorem parseNum_natDigits (m : Nat) (rest : List Char)
    (hrest : numFollowOk rest = true) :
    parseNum (natDigits m ++ rest) = some (.num (m : Int), rest) := by
  by_cases hm : m = 0
  · subst hm
    rw [natDigits_zero, List.cons_append, List.nil_append]
    exact parseNum_zero rest hrest
  · obtain ⟨c, cs, heq, hlo, hhi, hz⟩ := natDigits_head m
    have hzc : c ≠ '0' := by
      intro he
      rw [char_eq_iff_toNat] at he
      simp at he
      exact hz hm he
    have hdig := natDigits_digits m
    rw [heq] at hdig ⊢
    rw [List.cons_append, parseNum]
    simp only [List.head?_cons, List.tail_cons]
    rw [if_neg (by simp [char_digit_ne_minus ⟨hlo, hhi⟩])]
    simp only
    rw [if_pos ((char_isDigit_iff c).mpr ⟨hlo, hhi⟩), if_neg hzc]
    rw [← List.cons_append, takeDigits_run (c :: cs) rest hdig hrest]
    simp only
    rw [if_neg (numFollowOk_no_dot hrest)]
    rw [show digitsToNat (c :: cs) = m from heq ▸ digitsToNat_natDigits m]
    simp

theorem parseNum_dumpInt (n : Int) (rest : List Char)
    (hrest : numFollowOk rest = true) :
    parseNum (dumpInt n ++ rest) = some (.num n, rest) := by
  rw [dumpInt]
  by_cases hneg : n < 0
  · rw [if_pos hneg]
    have habs : n.natAbs ≠ 0 := by omega
    obtain ⟨c, cs, heq, hlo, hhi, hz⟩ := natDigits_head n.natAbs
    have hzc : c ≠ '0' := by
      intro he
      rw [char_eq_iff_toNat] at he
      simp at he
      exact hz habs he
    have hdig := natDigits_digits n.natAbs
    rw [heq] at hdig ⊢
    rw [List.cons_append, List.cons_append, parseNum]
    simp only [List.head?_cons, List.tail_cons]
    simp only [if_true]
    rw [if_pos ((char_isDigit_iff c).mpr ⟨hlo, hhi⟩), if_neg hzc]
    rw [← List.cons_append, takeDigits_run (c :: cs) rest hdig hrest]
    simp only
    rw [if_neg (numFollowOk_no_dot hrest)]
    rw [show digitsToNat (c :: cs) = n.natAbs from heq ▸ digitsToNat_natDigits n.natAbs]
    have hval : (-(n.natAbs : Int)) = n := by omega
    simp [hval]
    rw [abs_of_neg hneg]
    ring
  · rw [if_neg hneg]
    rw [parseNum_natDigits _ _ hrest]
    congr 3
    omega

-- ── Round trip: well-formedness and head-character facts ─────────────

/-- Membership of a key in a key list. -/
def keyMem (k : List Char) : List (List Char) → Bool
  | [] => false
  | a :: rest => if a = k then true else keyMem k rest

/-- No key occurs twice.  `json.dumps` output of a Python dict always
has distinct keys, so the round trip is stated for such objects. -/
def distinctKeys : List (List Char) → Bool
  | [] => true
  | k :: ks => !(keyMem k ks) && distinctKeys ks

mutual

/-- Well-formed embedded value: every object layer has distinct keys
(true of every value arising from a Python object, where objects are
dicts). -/
def wfJson : Json → Bool
  | .null => true
  | .bool _ => true
  | .num _ => true
  | .str _ => true
  | .arr xs => wfElems xs
  | .obj kvs => distinctKeys (kvs.map Prod.fst) && wfVals kvs

/-- All array elements well-formed. -/
def wfElems : List Json → Bool
  | [] => true
  | x :: xs => wfJson x && wfElems xs

/-- All object values well-formed. -/
def wfVals : List (List Char × Json) → Bool
  | [] => true
  | kv :: rest => wfJson kv.2 && wfVals rest

end

/-- Guard on what may follow a serialized value: only a number needs a
boundary (the next character must not extend the numeric literal). -/
def followGuard : Json → List Char → Prop
  | .num _, rest => numFollowOk rest = true
  | _, _ => True

theorem keyMem_false_iff (k : List Char) (l : List (List Char)) :
    keyMem k l = false ↔ ∀ x ∈ l, x ≠ k := by
  induction l with
  | nil => simp [keyMem]
  | cons a rest ih =>
      rw [keyMem]
      by_cases h : a = k
      · simp [h]
      · simp [h, ih]

theorem followGuard_sep (j : Json) (c : Char) (r : List Char)
    (h : c = ',' ∨ c = ']' ∨ c = Char.ofNat 125) : followGuard j (c :: r) := by
  cases j <;> try trivial
  show numFollowOk (c :: r) = true
  rcases h with h | h | h <;> subst h <;> rw [numFollowOk] <;> decide

theorem followGuard_nl (j : Json) : followGuard j ['\n'] := by
  cases j <;> trivial

theorem addField_append (acc : List (List Char × Json)) (k : List Char) (v : Json)
    (h : ∀ kv ∈ acc, kv.1 ≠ k) : addField acc k v = acc ++ [(k, v)] := by
  induction acc with
  | nil => rfl
  | cons kv rest ih =>
      obtain ⟨k0, v0⟩ := kv
      rw [addField]
      rw [if_neg (h (k0, v0) (by simp))]
      rw [ih (fun kv hkv => h kv (by simp [hkv]))]
      rfl

theorem distinctKeys_mid (l1 : List (List Char)) (k : List Char)
    (l2 : List (List Char)) (h : distinctKeys (l1 ++ k :: l2) = true) :
    ∀ x ∈ l1, x ≠ k := by
  induction l1 with
  | nil => simp
  | cons a l1 ih =>
      rw [List.cons_append, distinctKeys] at h
      simp only [Bool.and_eq_true, Bool.not_eq_true'] at h
      intro x hx
      rcases List.mem_cons.mp hx with hxa | hx1
      · subst hxa
        have := (keyMem_false_iff x (l1 ++ k :: l2)).mp h.1
        intro hxk
        exact this k (by simp) hxk.symm
      · exact ih h.2 x hx1

theorem dumpInt_head (n : Int) :
    ∃ c r, dumpInt n = c :: r ∧ (c.toNat = 45 ∨ (48 ≤ c.toNat ∧ c.toNat ≤ 57)) := by
  rw [dumpInt]
  by_cases h : n < 0
  · exact ⟨'-', natDigits n.natAbs, by rw [if_pos h], Or.inl (by decide)⟩
  · obtain ⟨c, cs, heq, hlo, hhi, _⟩ := natDigits_head n.natAbs
    exact ⟨c, cs, by rw [if_neg h, heq], Or.inr ⟨hlo, hhi⟩⟩

theorem dumps_head (j : Json) :
    ∃ c r, dumps j = c :: r ∧ isJsonWs c = false ∧ c ≠ ']' ∧
      c ≠ Char.ofNat 125 ∧ c ≠ ',' := by
  cases j with
  | null => exact ⟨'n', ['u', 'l', 'l'], by rw [dumps], by decide, by decide,
      by decide, by decide⟩
  | bool b =>
      cases b
      · exact ⟨'f', ['a', 'l', 's', 'e'], by rw [dumps], by decide, by decide,
          by decide, by decide⟩
      · exact ⟨'t', ['r', 'u', 'e'], by rw [dumps], by decide, by decide,
          by decide, by decide⟩
  | num n =>
      obtain ⟨c, r, heq, h45⟩ := dumpInt_head n
      refine ⟨c, r, by rw [dumps, heq], isJsonWs_false (by omega), ?_, ?_, ?_⟩
      · intro he; rw [char_eq_iff_toNat] at he; simp at he; omega
      · intro he
        rw [char_eq_iff_toNat, char_toNat_ofNat _ (Or.inl (by omega))] at he
        omega
      · intro he; rw [char_eq_iff_toNat] at he; simp at he; omega
  | str s => exact ⟨'"', escapeStr s ++ ['"'], by rw [dumps]; rfl, by decide,
      by decide, by decide, by decide⟩
  | arr xs => exact ⟨'[', dumpsItems xs ++ [']'], by rw [dumps]; rfl, by decide,
      by decide, by decide, by decide⟩
  | obj kvs =>
      refine ⟨Char.ofNat 123, dumpsFields kvs ++ [Char.ofNat 125],
        by rw [dumps]; rfl,
        isJsonWs_false (by rw [char_toNat_ofNat _ (Or.inl (by omega))]; omega),
        by decide, by decide, by decide⟩

theorem dumpsItems_head (x : Json) (xs : List Json) :
    ∃ c r, dumpsItems (x :: xs) = c :: r ∧ isJsonWs c = false ∧ c ≠ ']' := by
  obtain ⟨c, r, heq, hws, hne, _, _⟩ := dumps_head x
  cases xs with
  | nil => exact ⟨c, r, by rw [dumpsItems, heq], hws, hne⟩
  | cons y ys =>
      exact ⟨c, r ++ ',' :: dumpsItems (y :: ys),
        by rw [dumpsItems, heq, List.cons_append], hws, hne⟩

theorem dumpsFields_head (f : List Char × Json) (kvs : List (List Char × Json)) :
    ∃ r, dumpsFields (f :: kvs) = '"' :: r := by
  obtain ⟨k, v⟩ := f
  cases kvs with
  | nil => exact ⟨escapeStr k ++ '"' :: ':' :: dumps v, by rw [dumpsFields]; rfl⟩
  | cons g gs =>
      exact ⟨escapeStr k ++ '"' :: ':' :: dumps v ++ ',' :: dumpsFields (g :: gs),
        by rw [dumpsFields]; rfl⟩

theorem parseValue_null (g : Nat) (r : List Char) :
    parseValue (g + 1) ('n' :: 'u' :: 'l' :: 'l' :: r) = some (.null, r) := by
  rw [parseValue]
  rw [skipWs_cons _ (by decide)]
  simp

theorem parseValue_true (g : Nat) (r : List Char) :
    parseValue (g + 1) ('t' :: 'r' :: 'u' :: 'e' :: r) = some (.bool true, r) := by
  rw [parseValue]
  rw [skipWs_cons _ (by decide)]
  simp

theorem parseValue_false (g : Nat) (r : List Char) :
    parseValue (g + 1) ('f' :: 'a' :: 'l' :: 's' :: 'e' :: r) =
      some (.bool false, r) := by
  rw [parseValue]
  rw [skipWs_cons _ (by decide)]
  simp

theorem parseValue_str (g : Nat) (r : List Char) :
    parseValue (g + 1) ('"' :: r) =
      (parseStr r).map (fun p => (.str p.1, p.2)) := by
  rw [parseValue]
  rw [skipWs_cons _ (by decide)]
  simp

theorem parseValue_num1 (g : Nat) (c : Char) (r : List Char)
    (h45 : c.toNat = 45 ∨ (48 ≤ c.toNat ∧ c.toNat ≤ 57)) :
    parseValue (g + 1) (c :: r) = parseNum (c :: r) := by
  have h1 : c ≠ 'n' := by intro he; rw [char_eq_iff_toNat] at he; simp at he; omega
  have h2 : c ≠ 't' := by intro he; rw [char_eq_iff_toNat] at he; simp at he; omega
  have h3 : c ≠ 'f' := by intro he; rw [char_eq_iff_toNat] at he; simp at he; omega
  have h4 : c ≠ '"' := by intro he; rw [char_eq_iff_toNat] at he; simp at he; omega
  have h5 : c ≠ '[' := by intro he; rw [char_eq_iff_toNat] at he; simp at he; omega
  have h6 : c ≠ Char.ofNat 123 := by
    intro he
    rw [char_eq_iff_toNat, char_toNat_ofNat _ (Or.inl (by omega))] at he
    omega
  rw [parseValue]
  rw [skipWs_cons _ (isJsonWs_false (by omega))]
  simp [h1, h2, h3, h4, h5, h6]

theorem parseValue_arr_empty (g : Nat) (r : List Char) :
    parseValue (g + 1) ('[' :: ']' :: r) = some (.arr [], r) := by
  rw [parseValue]
  rw [skipWs_cons _ (by decide)]
  simp [skipWs, isJsonWs]

theorem parseValue_arr_cons (g : Nat) (c : Char) (r : List Char)
    (hws : isJsonWs c = false) (hne : c ≠ ']') :
    parseValue (g + 1) ('[' :: c :: r) = parseElems g (c :: r) [] := by
  rw [parseValue]
  rw [skipWs_cons _ (by decide)]
  simp [skipWs_cons _ hws, hne]

theorem parseValue_obj_empty (g : Nat) (r : List Char) :
    parseValue (g + 1) (Char.ofNat 123 :: Char.ofNat 125 :: r) =
      some (.obj [], r) := by
  rw [parseValue]
  rw [skipWs_cons _ (by decide)]
  simp [skipWs, isJsonWs, char_eq_iff_toNat,
    char_toNat_ofNat _ (Or.inl (show (125 : Nat) < 0xd800 by omega))]

theorem parseValue_obj_str (g : Nat) (r : List Char) :
    parseValue (g + 1) (Char.ofNat 123 :: '"' :: r) =
      parseFields g ('"' :: r) [] := by
  rw [parseValue]
  rw [skipWs_cons _ (by decide)]
  simp [skipWs, isJsonWs, show ('"' : Char) ≠ Char.ofNat 125 from by decide]

mutual

theorem parse_dumps : ∀ (j : Json) (fuel : Nat) (rest : List Char),
    wfJson j = true → followGuard j rest →
    2 * (dumps j ++ rest).length < fuel →
    parseValue fuel (dumps j ++ rest) = some (j, rest)
  | j, 0, rest => by
      intro _ _ hfuel
      omega
  | .null, g + 1, rest => by
      intro _ _ _
      rw [show dumps .null = ['n', 'u', 'l', 'l'] from by rw [dumps]]
      exact parseValue_null g rest
  | .bool true, g + 1, rest => by
      intro _ _ _
      rw [show dumps (.bool true) = ['t', 'r', 'u', 'e'] from by rw [dumps]]
      exact parseValue_true g rest
  | .bool false, g + 1, rest => by
      intro _ _ _
      rw [show dumps (.bool false) = ['f', 'a', 'l', 's', 'e'] from by rw [dumps]]
      exact parseValue_false g rest
  | .num n, g + 1, rest => by
      intro _ hfg _
      have hf : numFollowOk rest = true := hfg
      rw [show dumps (.num n) = dumpInt n from by rw [dumps]]
      obtain ⟨c, r, heq, h45⟩ := dumpInt_head n
      rw [heq, List.cons_append, parseValue_num1 g c _ h45, ← List.cons_append,
        ← heq]
      exact parseNum_dumpInt n rest hf
  | .str s, g + 1, rest => by
      intro _ _ _
      rw [show dumps (.str s) = '"' :: escapeStr s ++ ['"'] from by rw [dumps]]
      simp only [List.append_assoc, List.cons_append, List.nil_append]
      rw [parseValue_str, parseStr_escapeStr]
      rfl
  | .arr xs, g + 1, rest => by
      intro hwf _ hfuel
      rw [show dumps (.arr xs) = '[' :: dumpsItems xs ++ [']'] from by rw [dumps]]
        at hfuel ⊢
      rw [show wfJson (.arr xs) = wfElems xs from by rw [wfJson]] at hwf
      simp only [List.append_assoc, List.cons_append, List.nil_append] at hfuel ⊢
      cases xs with
      | nil =>
          rw [show dumpsItems [] = [] from by rw [dumpsItems]]
          rw [List.nil_append]
          exact parseValue_arr_empty g rest
      | cons x xs0 =>
          obtain ⟨c, r, heq, hws, hne⟩ := dumpsItems_head x xs0
          rw [heq, List.cons_append]
          rw [parseValue_arr_cons g c _ hws hne]
          rw [← List.cons_append, ← heq]
          rw [parse_dumps_elems (x :: xs0) [] g rest (by simp) hwf
            (by
              rw [heq] at hfuel ⊢
              simp only [List.length_append, List.length_cons] at hfuel ⊢
              omega)]
          simp
  | .obj kvs, g + 1, rest => by
      intro hwf _ hfuel
      rw [show dumps (.obj kvs) =
        Char.ofNat 123 :: dumpsFields kvs ++ [Char.ofNat 125] from by rw [dumps]]
        at hfuel ⊢
      rw [show wfJson (.obj kvs) =
        (distinctKeys (kvs.map Prod.fst) && wfVals kvs) from by rw [wfJson]] at hwf
      simp only [Bool.and_eq_true] at hwf
      simp only [List.append_assoc, List.cons_append, List.nil_append] at hfuel ⊢
      cases kvs with
      | nil =>
          rw [show dumpsFields [] = [] from by rw [dumpsFields]]
          rw [List.nil_append]
          exact parseValue_obj_empty g rest
      | cons f kvs0 =>
          obtain ⟨r, heq⟩ := dumpsFields_head f kvs0
          rw [heq, List.cons_append]
          rw [parseValue_obj_str g]
          rw [← List.cons_append, ← heq]
          rw [parse_dumps_fields (f :: kvs0) [] g rest (by simp)
            (by simpa using hwf.1) hwf.2
            (by
              rw [heq] at hfuel ⊢
              simp only [List.length_append, List.length_cons] at hfuel ⊢
              omega)]
          simp

theorem parse_dumps_elems : ∀ (xs : List Json) (acc : List Json) (fuel : Nat)
    (rest : List Char),
    xs ≠ [] → wfElems xs = true →
    2 * (dumpsItems xs ++ ']' :: rest).length + 1 < fuel →
    parseElems fuel (dumpsItems xs ++ ']' :: rest) acc =
      some (.arr (acc ++ xs), rest)
  | _, acc, 0, rest => by
      intro _ _ hfuel
      omega
  | [], _, _ + 1, _ => by
      intro hne _ _
      exact absurd rfl hne
  | [x], acc, g + 1, rest => by
      intro _ hwf hfuel
      rw [show wfElems [x] = (wfJson x && true) from by rw [wfElems, wfElems]]
        at hwf
      simp only [Bool.and_eq_true] at hwf
      rw [show dumpsItems [x] = dumps x from by rw [dumpsItems]] at hfuel ⊢
      rw [parseElems]
      rw [parse_dumps x g (']' :: rest) hwf.1
        (followGuard_sep x ']' rest (by simp)) (by omega)]
      simp only
      rw [skipWs_cons _ (by decide)]
      simp
  | x :: y :: xs0, acc, g + 1, rest => by
      intro _ hwf hfuel
      rw [show wfElems (x :: y :: xs0) = (wfJson x && wfElems (y :: xs0)) from
        by rw [wfElems]] at hwf
      simp only [Bool.and_eq_true] at hwf
      rw [show dumpsItems (x :: y :: xs0) =
        dumps x ++ ',' :: dumpsItems (y :: xs0) from by rw [dumpsItems]]
        at hfuel ⊢
      simp only [List.append_assoc, List.cons_append] at hfuel ⊢
      rw [parseElems]
      obtain ⟨cx, rx, heqx, _, _, _, _⟩ := dumps_head x
      rw [parse_dumps x g (',' :: (dumpsItems (y :: xs0) ++ ']' :: rest)) hwf.1
        (followGuard_sep x ',' _ (by simp)) (by omega)]
      simp only
      rw [skipWs_cons _ (by decide)]
      simp only [reduceIte]
      rw [parse_dumps_elems (y :: xs0) (acc ++ [x]) g rest (by simp) hwf.2
        (by
          rw [heqx] at hfuel
          simp only [List.length_append, List.length_cons] at hfuel ⊢
          omega)]
      simp

theorem parse_dumps_fields : ∀ (kvs : List (List Char × Json))
    (acc : List (List Char × Json)) (fuel : Nat) (rest : List Char),
    kvs ≠ [] →
    distinctKeys ((acc ++ kvs).map Prod.fst) = true →
    wfVals kvs = true →
    2 * (dumpsFields kvs ++ Char.ofNat 125 :: rest).length + 1 < fuel →
    parseFields fuel (dumpsFields kvs ++ Char.ofNat 125 :: rest) acc =
      some (.obj (acc ++ kvs), rest)
  | _, acc, 0, rest => by
      intro _ _ _ hfuel
      omega
  | [], _, _ + 1, _ => by
      intro hne _ _ _
      exact absurd rfl hne
  | [(k, v)], acc, g + 1, rest => by
      intro _ hdist hwf hfuel
      rw [show wfVals [(k, v)] = (wfJson v && true) from by rw [wfVals, wfVals]]
        at hwf
      simp only [Bool.and_eq_true] at hwf
      rw [show dumpsFields [(k, v)] = '"' :: escapeStr k ++ '"' :: ':' :: dumps v
        from by rw [dumpsFields]] at hfuel ⊢
      simp only [List.append_assoc, List.cons_append] at hfuel ⊢
      rw [parseFields]
      rw [skipWs_cons _ (by decide)]
      simp only [reduceIte]
      rw [parseStr_escapeStr]
      simp only
      rw [skipWs_cons _ (by decide)]
      simp only [reduceIte]
      rw [parse_dumps v g (Char.ofNat 125 :: rest) hwf.1
        (followGuard_sep v (Char.ofNat 125) rest (by simp))
        (by
          simp only [List.length_append, List.length_cons] at hfuel ⊢
          omega)]
      simp only
      rw [skipWs_cons _ (isJsonWs_false
        (by rw [char_toNat_ofNat _ (Or.inl (by omega))]; omega))]
      simp only [reduceIte]
      rw [addField_append acc k v
        (by
          intro kv hkv
          have hmid := distinctKeys_mid (acc.map Prod.fst) k []
            (by simpa using hdist)
          exact hmid kv.1 (List.mem_map_of_mem Prod.fst hkv))]
      simp
  | (k, v) :: f :: kvs0, acc, g + 1, rest => by
      intro _ hdist hwf hfuel
      rw [show wfVals ((k, v) :: f :: kvs0) = (wfJson v && wfVals (f :: kvs0))
        from by rw [wfVals]] at hwf
      simp only [Bool.and_eq_true] at hwf
      rw [show dumpsFields ((k, v) :: f :: kvs0) =
        '"' :: escapeStr k ++ '"' :: ':' :: dumps v ++
          ',' :: dumpsFields (f :: kvs0) from by rw [dumpsFields]] at hfuel ⊢
      simp only [List.append_assoc, List.cons_append] at hfuel ⊢
      rw [parseFields]
      rw [skipWs_cons _ (by decide)]
      simp only [reduceIte]
      rw [parseStr_escapeStr]
      simp only
      rw [skipWs_cons _ (by decide)]
      simp only [reduceIte]
      obtain ⟨cv, rv, heqv, _, _, _, _⟩ := dumps_head v
      rw [parse_dumps v g
        (',' :: (dumpsFields (f :: kvs0) ++ Char.ofNat 125 :: rest)) hwf.1
        (followGuard_sep v ',' _ (by simp))
        (by
          simp only [List.length_append, List.length_cons] at hfuel ⊢
          omega)]
      simp only
      rw [skipWs_cons _ (by decide)]
      simp only [reduceIte]
      rw [addField_append acc k v
        (by
          intro kv hkv
          have hmid := distinctKeys_mid (acc.map Prod.fst) k
            ((f :: kvs0).map Prod.fst) (by simpa using hdist)
          exact hmid kv.1 (List.mem_map_of_mem Prod.fst hkv))]
      rw [parse_dumps_fields (f :: kvs0) (acc ++ [(k, v)]) g rest (by simp)
        (by
          rw [show (acc ++ [(k, v)]) ++ f :: kvs0 = acc ++ (k, v) :: f :: kvs0
            from by simp]
          exact hdist)
        hwf.2
        (by
          rw [heqv] at hfuel
          simp only [List.length_append, List.length_cons] at hfuel ⊢
          omega)]
      simp

end

theorem json_loads_dumps (j : Json) (hwf : wfJson j = true) :
    json_loads (dumps j ++ ['\n']) = some j := by
  rw [json_loads]
  rw [parse_dumps j (2 * (dumps j ++ ['\n']).length + 1) ['\n'] hwf
    (followGuard_nl j) (by omega)]
  simp [skipWs, isJsonWs]

theorem hexDigit_ascii (m : Nat) (hm : m < 16) : (hexDigit m).toNat < 0x80 := by
  rw [hexDigit]
  by_cases h : m < 10
  · rw [if_pos h, char_toNat_ofNat _ (Or.inl (by omega))]
    omega
  · rw [if_neg h, char_toNat_ofNat _ (Or.inl (by omega))]
    omega

theorem hex4_ascii (n : Nat) : ∀ d ∈ hex4 n, d.toNat < 0x80 := by
  intro d hd
  rw [hex4] at hd
  simp only [List.mem_cons, List.not_mem_nil, or_false] at hd
  rcases hd with h | h | h | h <;> subst h <;>
    exact hexDigit_ascii _ (Nat.mod_lt _ (by omega))

theorem escapeChar_ascii (c : Char) : ∀ d ∈ escapeChar c, d.toNat < 0x80 := by
  intro d hd
  rw [escapeChar] at hd
  split_ifs at hd with h1 h2 h3 h4 h5 h6 h7 h8 h9
  · simp only [List.mem_cons, List.not_mem_nil, or_false] at hd
    rcases hd with h | h <;> subst h <;> decide
  · simp only [List.mem_cons, List.not_mem_nil, or_false] at hd
    rcases hd with h | h <;> subst h <;> decide
  · simp only [List.mem_cons, List.not_mem_nil, or_false] at hd
    rcases hd with h | h <;> subst h <;> decide
  · simp only [List.mem_cons, List.not_mem_nil, or_false] at hd
    rcases hd with h | h <;> subst h <;> decide
  · simp only [List.mem_cons, List.not_mem_nil, or_false] at hd
    rcases hd with h | h <;> subst h <;> decide
  · simp only [List.mem_cons, List.not_mem_nil, or_false] at hd
    rcases hd with h | h <;> subst h <;> decide
  · simp only [List.mem_cons, List.not_mem_nil, or_false] at hd
    rcases hd with h | h <;> subst h <;> decide
  · simp only [List.mem_cons, List.not_mem_nil, or_false] at hd
    subst hd
    omega
  · simp only [List.mem_cons] at hd
    rcases hd with h | h | h
    · subst h; decide
    · subst h; decide
    · exact hex4_ascii _ _ h
  · simp only [List.mem_append, List.mem_cons] at hd
    rcases hd with (h | h | h) | (h | h | h)
    · subst h; decide
    · subst h; decide
    · exact hex4_ascii _ _ h
    · subst h; decide
    · subst h; decide
    · exact hex4_ascii _ _ h

theorem escapeStr_ascii (s : List Char) : ∀ d ∈ escapeStr s, d.toNat < 0x80 := by
  induction s with
  | nil => simp [escapeStr]
  | cons c cs ih =>
      intro d hd
      rw [escapeStr] at hd
      rcases List.mem_append.mp hd with h | h
      · exact escapeChar_ascii c d h
      · exact ih d h

theorem dumpInt_ascii (n : Int) : ∀ d ∈ dumpInt n, d.toNat < 0x80 := by
  intro d hd
  rw [dumpInt] at hd
  have hdig := natDigits_digits n.natAbs
  split_ifs at hd
  · rcases List.mem_cons.mp hd with h | h
    · subst h; decide
    · have := hdig d h; omega
  · have := hdig d hd; omega

mutual

theorem dumps_ascii : ∀ (j : Json), ∀ d ∈ dumps j, d.toNat < 0x80
  | .null => by
      rw [dumps]
      intro d hd
      fin_cases hd <;> decide
  | .bool true => by
      rw [dumps]
      intro d hd
      fin_cases hd <;> decide
  | .bool false => by
      rw [dumps]
      intro d hd
      fin_cases hd <;> decide
  | .num n => by
      rw [dumps]
      exact dumpInt_ascii n
  | .str s => by
      rw [dumps]
      intro d hd
      simp only [List.cons_append, List.mem_cons, List.mem_append,
        List.not_mem_nil, or_false] at hd
      rcases hd with h | h | h
      · subst h; decide
      · exact escapeStr_ascii s d h
      · subst h; decide
  | .arr xs => by
      rw [dumps]
      intro d hd
      simp only [List.cons_append, List.mem_cons, List.mem_append,
        List.not_mem_nil, or_false] at hd
      rcases hd with h | h | h
      · subst h; decide
      · exact dumpsItems_ascii xs d h
      · subst h; decide
  | .obj kvs => by
      rw [dumps]
      intro d hd
      simp only [List.cons_append, List.mem_cons, List.mem_append,
        List.not_mem_nil, or_false] at hd
      rcases hd with h | h | h
      · subst h
        rw [char_toNat_ofNat _ (Or.inl (by omega))]
        omega
      · exact dumpsFields_ascii kvs d h
      · subst h
        rw [char_toNat_ofNat _ (Or.inl (by omega))]
        omega

theorem dumpsItems_ascii : ∀ (xs : List Json), ∀ d ∈ dumpsItems xs, d.toNat < 0x80
  | [] => by rw [dumpsItems]; simp
  | [x] => by rw [dumpsItems]; exact dumps_ascii x
  | x :: y :: xs0 => by
      rw [dumpsItems]
      intro d hd
      simp only [List.mem_append, List.mem_cons] at hd
      rcases hd with h | h | h
      · exact dumps_ascii x d h
      · subst h; decide
      · exact dumpsItems_ascii (y :: xs0) d h

theorem dumpsFields_ascii :
    ∀ (kvs : List (List Char × Json)), ∀ d ∈ dumpsFields kvs, d.toNat < 0x80
  | [] => by rw [dumpsFields]; simp
  | [(k, v)] => by
      rw [dumpsFields]
      intro d hd
      simp only [List.mem_cons, List.mem_append] at hd
      rcases hd with (h | h) | h | h | h
      · subst h; decide
      · exact escapeStr_ascii k d h
      · subst h; decide
      · subst h; decide
      · exact dumps_ascii v d h
  | (k, v) :: f :: kvs0 => by
      rw [dumpsFields]
      intro d hd
      simp only [List.mem_cons, List.mem_append] at hd
      rcases hd with ((h | h) | h | h | h) | h | h
      · subst h; decide
      · exact escapeStr_ascii k d h
      · subst h; decide
      · subst h; decide
      · exact dumps_ascii v d h
      · subst h; decide
      · exact dumpsFields_ascii (f :: kvs0) d h

end

theorem utf8Encode_ascii (s : List Char) (h : ∀ c ∈ s, c.toNat < 0x80) :
    utf8Encode s = s.map Char.toNat := by
  induction s with
  | nil => rfl
  | cons c cs ih =>
      rw [utf8Encode, utf8EncodeChar]
      simp only [if_pos (h c (by simp))]
      rw [ih (fun d hd => h d (by simp [hd]))]
      rfl

theorem utf8DecodeLoop_ascii (s : List Char) :
    ∀ (fuel : Nat), s.length ≤ fuel → (∀ c ∈ s, c.toNat < 0x80) →
      utf8DecodeLoop fuel (s.map Char.toNat) = some s := by
  induction s with
  | nil =>
      intro fuel _ _
      cases fuel <;> rfl
  | cons c cs ih =>
      intro fuel hfuel hascii
      cases fuel with
      | zero => simp at hfuel
      | succ g =>
          rw [List.map_cons, utf8DecodeLoop]
          rw [show utf8Step c.toNat (cs.map Char.toNat) =
            some (Char.ofNat c.toNat, 0) from by
              rw [utf8Step.eq_def]; rw [if_pos (hascii c (by simp))]]
          show (utf8DecodeLoop g (List.drop 0 (cs.map Char.toNat))).map
            (Char.ofNat c.toNat :: ·) = some (c :: cs)
          rw [List.drop_zero]
          rw [ih g (by simp at hfuel; omega)
            (fun d hd => hascii d (by simp [hd]))]
          simp only [Option.map_some', Char.ofNat_toNat]

theorem read_msg_encode_msg (j : Json) (hwf : wfJson j = true) :
    read_msg (.line (encode_msg j)) = some j := by
  rw [read_msg, encode_msg]
  have hasc : ∀ c ∈ dumps j ++ ['\n'], c.toNat < 0x80 := by
    intro c hc
    rcases List.mem_append.mp hc with h | h
    · exact dumps_ascii j c h
    · simp at h; subst h; decide
  rw [utf8Encode_ascii _ hasc]
  rw [if_neg (by simp)]
  rw [show utf8Decode ((dumps j ++ ['\n']).map Char.toNat) =
    some (dumps j ++ ['\n']) from by
      rw [utf8Decode, List.length_map]
      exact utf8DecodeLoop_ascii _ _ le_rfl hasc]
  exact json_loads_dumps j hwf

-- ── Wire messages (spec §6, net.py and app.py call sites) ────────────

/-- A queue entry as carried in `add` and `sync` frames: `id` and
`title` strings, optional `channel` and `duration` (spec §3
TrackEntry).  The numeric `duration` is embedded as an integer. -/
structure TrackEntry where
  id : List Char
  title : List Char
  channel : Option (List Char)
  duration : Option Int

/-- JSON object for a TrackEntry, present fields in declaration order. -/
def entryToJson (e : TrackEntry) : Json :=
  .obj ([(('i' :: ['d']), Json.str e.id), (('t' :: "itle".data), Json.str e.title)] ++
    (match e.channel with
     | some ch => [("channel".data, Json.str ch)]
     | none => []) ++
    (match e.duration with
     | some d => [("duration".data, Json.num d)]
     | none => []))

/-- The four LAN frame types (spec §6 wire table; `sync` built exactly
as app.py lines 433-442 builds it). -/
inductive Message where
  | hello
  | add (entry : TrackEntry)
  | ack (title : List Char)
  | sync (queue : List TrackEntry) (track : Option TrackEntry)
      (position : Int) (duration : Int) (paused : Bool)

/-- JSON object for each frame, fields in the order the source builds
them. -/
def msgToJson : Message → Json
  | .hello => .obj [("type".data, Json.str "hello".data)]
  | .add e => .obj [("type".data, Json.str "add".data), ("entry".data, entryToJson e)]
  | .ack title => .obj [("type".data, Json.str "ack".data), ("title".data, Json.str title)]
  | .sync queue track pos dur paused =>
      .obj [("type".data, Json.str "sync".data),
        ("queue".data, Json.arr (queue.map entryToJson)),
        ("track".data, match track with
          | some e => entryToJson e
          | none => Json.null),
        ("position".data, Json.num pos),
        ("duration".data, Json.num dur),
        ("paused".data, Json.bool paused)]

theorem wfJson_null : wfJson .null = true := by rw [wfJson]

theorem wfJson_bool (b : Bool) : wfJson (.bool b) = true := by rw [wfJson]

theorem wfJson_num (n : Int) : wfJson (.num n) = true := by rw [wfJson]

theorem wfJson_str (s : List Char) : wfJson (.str s) = true := by rw [wfJson]

theorem wfJson_arr (xs : List Json) : wfJson (.arr xs) = wfElems xs := by
  rw [wfJson]

theorem wfJson_obj (kvs : List (List Char × Json)) :
    wfJson (.obj kvs) = (distinctKeys (kvs.map Prod.fst) && wfVals kvs) := by
  rw [wfJson]

theorem entryToJson_wf (e : TrackEntry) : wfJson (entryToJson e) = true := by
  obtain ⟨i, t, ch, du⟩ := e
  rw [entryToJson]
  cases ch <;> cases du <;>
    simp [wfJson_obj, wfJson_str, wfJson_num, wfVals, distinctKeys, keyMem]

theorem wfElems_map_entry (queue : List TrackEntry) :
    wfElems (queue.map entryToJson) = true := by
  induction queue with
  | nil => rw [List.map_nil, wfElems]
  | cons e es ih =>
      rw [List.map_cons, wfElems]
      simp [entryToJson_wf e, ih]

theorem msgToJson_wf (m : Message) : wfJson (msgToJson m) = true := by
  cases m with
  | hello =>
      simp [msgToJson, wfJson_obj, wfJson_str, wfVals, distinctKeys, keyMem]
  | add e =>
      simp [msgToJson, wfJson_obj, wfJson_str, wfVals, distinctKeys, keyMem,
        entryToJson_wf e]
  | ack title =>
      simp [msgToJson, wfJson_obj, wfJson_str, wfVals, distinctKeys, keyMem]
  | sync queue track pos dur paused =>
      cases track with
      | none =>
          simp [msgToJson, wfJson_obj, wfJson_str, wfJson_num, wfJson_bool,
            wfJson_null, wfJson_arr, wfVals, distinctKeys, keyMem,
            wfElems_map_entry queue]
      | some e =>
          simp [msgToJson, wfJson_obj, wfJson_str, wfJson_num, wfJson_bool,
            wfJson_arr, wfVals, distinctKeys, keyMem,
            wfElems_map_entry queue, entryToJson_wf e]

-- ── Broadcast Server (src/ytm_cli/net.py lines 38-116) ───────────────

/-- Python exceptions the embedded fragments can raise. -/
inductive PyError where
  | attributeError
deriving DecidableEq

/-- Python `msg.get(key)`: `None` for an absent key, `AttributeError`
when the receiver is not a dict. -/
def pyGet (msg : Json) (key : List Char) : Except PyError (Option Json) :=
  match msg with
  | .obj kvs => .ok (assocGet kvs key)
  | _ => .error .attributeError

/-- Observable effects of one `JukeboxServer._process` call: the entry
handed to `on_add` (if the callback was set and invoked) and the `ack`
frame written back (if any).  The source swallows transport errors on
the ack write, so `ackWritten` records the attempted write. -/
structure ProcessEffects where
  onAddArg : Option Json
  ackWritten : Option Json
deriving DecidableEq

/-- Embedding of `JukeboxServer._process` (net.py lines 85-98):
`mtype = msg.get("type")`; on an `add` whose `entry` is a dict
containing both an `id` key and a `title` key, invoke `on_add(entry)`
(when the callback is set) and write back
`{"type": "ack", "title": entry.get("title", "?")}`; otherwise do
nothing. -/
def process (onAddSet : Bool) (msg : Json) : Except PyError ProcessEffects := do
  let mtype ← pyGet msg "type".data
  if mtype = some (.str "add".data) then
    let entryOpt ← pyGet msg "entry".data
    match entryOpt with
    | some (.obj entry) =>
      if hasKey entry "id".data ∧ hasKey entry "title".data then
        .ok { onAddArg := if onAddSet then some (.obj entry) else none,
              ackWritten := some (.obj [("type".data, .str "ack".data),
                ("title".data, (assocGet entry "title".data).getD (.str ['?']))]) }
      else
        .ok ⟨none, none⟩
    | _ => .ok ⟨none, none⟩
  else
    .ok ⟨none, none⟩

/-- One registered connection: identity (the dict key, a task in the
source), whether its `writer.write` raises on this pass, and the frames
it has received. -/
structure Conn where
  cid : Nat
  writeFails : Bool
  received : List (List Nat)
deriving DecidableEq

/-- Embedding of `JukeboxServer.broadcast` (net.py lines 100-112):
return unchanged when the registry is empty; otherwise encode the
message once, write the same bytes to every registered connection
(collecting failed ones in `dead`), then prune the failed connections
after the write pass. -/
def broadcast (clients : List Conn) (msg : Json) : List Conn :=
  if clients.isEmpty then clients
  else
    let data := encode_msg msg
    let written := clients.map (fun c =>
      if c.writeFails then c else { c with received := c.received ++ [data] })
    written.filter (fun c => !c.writeFails)

/-- Events of one broadcast pass, in program order: all writes happen
during the iteration over the registry, all pruning afterwards. -/
inductive BEvent where
  | wrote (cid : Nat) (data : List Nat)
  | writeFailed (cid : Nat)
  | pruned (cid : Nat)
deriving DecidableEq

/-- Ordered event trace of `JukeboxServer.broadcast`: the write loop
(net.py lines 106-110) followed by the pruning loop (lines 111-112). -/
def broadcastTrace (clients : List Conn) (msg : Json) : List BEvent :=
  if clients.isEmpty then []
  else
    let data := encode_msg msg
    clients.map (fun c =>
      if c.writeFails then BEvent.writeFailed c.cid else BEvent.wrote c.cid data) ++
    (clients.filter (fun c => c.writeFails)).map (fun c => BEvent.pruned c.cid)

/-- Embedding of the `client_count` property (net.py lines 114-116). -/
def client_count (clients : List Conn) : Nat := clients.length

/-- One iteration of the `JukeboxServer._handle_client` read loop
(net.py lines 70-74): a `None` read exits the loop (the connection is
then removed); any decoded value is handed to `_process`. -/
inductive HandlerStep where
  | exitLoop
  | processMsg (msg : Json)
deriving DecidableEq

def handleClientStep : Option Json → HandlerStep
  | none => .exitLoop
  | some m => .processMsg m

-- ── Peer Client (src/ytm_cli/net.py lines 122-175) ───────────────────

/-- The peer client's connection state: the `_connected` flag and
whether `_reader`/`_writer` have been assigned. -/
structure ClientState where
  connected : Bool
  hasReader : Bool
  hasWriter : Bool
deriving DecidableEq

/-- Outcome of the transport steps inside `JukeboxClient.connect`
(net.py lines 137-148): `open_connection` under a 5-second `wait_for`
either raises `OSError` (refused, reset, resolution failure), times
out, or succeeds — after which writing/draining the `hello` frame may
itself raise an `OSError`. -/
inductive ConnectOutcome where
  | openFailed
  | openTimedOut
  | opened (helloSendFails : Bool)
deriving DecidableEq

/-- Embedding of `JukeboxClient.connect`.  The source assigns
`_reader`/`_writer`, sets `_connected = True`, then writes the hello
frame and drains; `except (OSError, asyncio.TimeoutError)` turns every
transport failure into a `False` return.  Nothing resets `_connected`
on the failure path. -/
def connect (s : ClientState) (o : ConnectOutcome) : Bool × ClientState :=
  match o with
  | .openFailed => (false, s)
  | .openTimedOut => (false, s)
  | .opened helloSendFails =>
    let s1 : ClientState := { connected := true, hasReader := true, hasWriter := true }
    if helloSendFails then (false, s1) else (true, s1)

/-- One iteration of the `JukeboxClient.listen` read loop (net.py
lines 150-158): a `None` read clears `_connected` and exits; any
decoded value flows on to the `msg.get("type") == "sync"` dispatch. -/
inductive ListenStep where
  | disconnect
  | dispatch (msg : Json)
deriving DecidableEq

def listenStep : Option Json → ListenStep
  | none => .disconnect
  | some m => .dispatch m

-- ── Media Engine Bridge (src/ytm_cli/player.py) ──────────────────────

/-- The spawned engine process handle: `poll() is None` iff alive. -/
inductive ProcHandle where
  | alive
  | exited
deriving DecidableEq

/-- Bridge state: `_proc`, `_sock`, and whether the control-socket file
exists on disk. -/
structure PlayerState where
  proc : Option ProcHandle
  sockConnected : Bool
  sockFileExists : Bool
deriving DecidableEq

/-- Embedding of the `is_running` property (player.py lines 23-25):
`self._proc is not None and self._proc.poll() is None`. -/
def is_running (s : PlayerState) : Bool := s.proc = some .alive

/-- Process-level actions `stop` performs. -/
inductive StopEvent where
  | terminated
  | killed
  | socketClosed
  | fileRemoved
deriving DecidableEq

/-- Embedding of `MpvPlayer.stop` (player.py lines 122-142): terminate
a live process (kill it if `wait(timeout=3)` expires), clear `_proc`,
close and clear `_sock`, unlink the socket file if present.  Every
failure on this path is caught in the source (`TimeoutExpired`,
`OSError` on close/unlink), so the embedding is a total function. -/
def stop (s : PlayerState) (exitsInTime : Bool) :
    PlayerState × List StopEvent :=
  let procEvents : List StopEvent :=
    match s.proc with
    | some .alive =>
        if exitsInTime then [.terminated] else [.terminated, .killed]
    | _ => []
  let sockEvents : List StopEvent := if s.sockConnected then [.socketClosed] else []
  let fileEvents : List StopEvent := if s.sockFileExists then [.fileRemoved] else []
  (⟨none, false, false⟩, procEvents ++ sockEvents ++ fileEvents)

/-- Embedding of `MpvPlayer.play` (player.py lines 27-54) followed by
`_connect` (lines 56-64).  `spawnOk` is whether `subprocess.Popen`
succeeds (a missing executable raises `FileNotFoundError`);
`sockAppears i` is whether the socket file exists at the i-th of the
30 polls (100 ms apart); `connectOk` is whether `_connect` succeeds. -/
def play (s : PlayerState) (spawnOk : Bool) (sockAppears : Nat → Bool)
    (connectOk : Bool) (stopExitsInTime : Bool) : Bool × PlayerState :=
  let s0 := (stop s stopExitsInTime).1
  if !spawnOk then (false, s0)
  else
    let s1 := { s0 with proc := some ProcHandle.alive }
    if !((List.range 30).any sockAppears) then (false, s1)
    else
      let s2 := { s1 with sockFileExists := true }
      if connectOk then (true, { s2 with sockConnected := true })
      else (false, { s2 with sockConnected := false })

/-- Whether an engine line carries an `event` key (player.py line 83):
such lines are asynchronous notifications, skipped while awaiting a
command's answer.  Engine lines are JSON objects per the IPC protocol;
a non-object line would make the source's `"event" not in data` raise
`TypeError`, which no claim exercises. -/
def hasEventKey : Json → Bool
  | .obj kvs => hasKey kvs "event".data
  | _ => false

/-- The read loop of `MpvPlayer._command` (player.py lines 73-86):
consume buffered lines, skipping `event` lines, until the first
non-event line (the treated-as-matching response) or until the
per-read 0.2-second timeout / closed stream yields `None`.  `avail` is
how many lines the engine delivers before the deadline; the returned
list is what remains unread in the socket for the NEXT command. -/
def commandRead : Nat → List Json → Option Json × List Json
  | _, [] => (none, [])
  | 0, ls => (none, ls)
  | avail + 1, l :: ls =>
      if hasEventKey l then commandRead avail ls else (some l, ls)

/-- One `_command` call holding the lock (player.py lines 66-89): with
no socket the call returns `None`; otherwise the request is sent and
the engine will append its response `resp` after the `pending` lines
already sitting unread in the socket.  The lock serializes whole calls,
so a session is a sequential composition of `commandCall`s. -/
def commandCall (sockConnected : Bool) (pending : List Json) (avail : Nat)
    (resp : Json) : Option Json × List Json :=
  if !sockConnected then (none, pending)
  else commandRead avail (pending ++ [resp])

/-- Decidable equality for command results, so that concrete scenarios
evaluate by `decide`. -/
instance exceptDecEq {α β : Type} [DecidableEq α] [DecidableEq β] :
    DecidableEq (Except α β)
  | .error a, .error b =>
    if h : a = b then .isTrue (congrArg Except.error h)
    else .isFalse (fun he => h (Except.error.inj he))
  | .error _, .ok _ => .isFalse (fun he => Except.noConfusion he)
  | .ok _, .error _ => .isFalse (fun he => Except.noConfusion he)
  | .ok a, .ok b =>
    if h : a = b then .isTrue (congrArg Except.ok h)
    else .isFalse (fun he => h (Except.ok.inj he))

/-- Embedding of `MpvPlayer.get_property` (player.py lines 91-95) on
the result of `_command`: when the result is truthy and carries
`"error": "success"`, return its `data` value (absent data gives
Python `None`); otherwise `None`.  A truthy non-dict result would make
`result.get` raise `AttributeError` in the source. -/
def get_property (res : Option Json) : Except PyError (Option Json) :=
  match res with
  | none => .ok none
  | some r =>
    if pyTruthy r then
      match r with
      | .obj kvs =>
          .ok (if assocGet kvs "error".data = some (.str "success".data)
               then assocGet kvs "data".data
               else none)
      | _ => .error .attributeError
    else .ok none

/-- Python `x or default` on a property value: `None` and falsy values
(0, 0.0, False, "", empty containers) give the default. -/
def pyOr (v : Except PyError (Option Json)) (default : Json) :
    Except PyError Json :=
  match v with
  | .error e => .error e
  | .ok none => .ok default
  | .ok (some x) => .ok (if pyTruthy x then x else default)

/-- Accessors (player.py lines 97-111): `get_property(...) or default`.
The Python float defaults 0.0 and 100.0 are embedded as the integers 0
and 100; Python truthiness of 0 and 0.0 is identical. -/
def position (res : Option Json) : Except PyError Json :=
  pyOr (get_property res) (.num 0)

def duration (res : Option Json) : Except PyError Json :=
  pyOr (get_property res) (.num 0)

def paused (res : Option Json) : Except PyError Json :=
  pyOr (get_property res) (.bool false)

def volume (res : Option Json) : Except PyError Json :=
  pyOr (get_property res) (.num 100)

-- ── Claim-specific concrete values ───────────────────────────────────

/-- An `add` frame whose entry has both keys present but both values
empty strings. -/
def c1msg : Json := .obj [("type".data, .str "add".data),
  ("entry".data, .obj [("id".data, .str []), ("title".data, .str [])])]

/-- Engine response to a `get_property playback-time` request:
success, value 42. -/
def respPos : Json := .obj [("error".data, .str "success".data),
  ("data".data, .num 42)]

/-- Engine response to a `get_property duration` request: success,
value 300. -/
def respDur : Json := .obj [("error".data, .str "success".data),
  ("data".data, .num 300)]

-- ── Claims ───────────────────────────────────────────────────────────

/-- C3: decoding the encoding of any wire message — hello, add, ack, or
sync (including a sync whose track is null) — yields the message again:
`read_msg` applied to the line produced by `encode_msg` returns exactly
the encoded JSON value. -/
theorem c3_roundtrip (m : Message) :
    read_msg (.line (encode_msg (msgToJson m))) = some (msgToJson m) :=
  read_msg_encode_msg (msgToJson m) (msgToJson_wf m)

/-- C8: the frame decoder returns `none` (never an exception — the
embedding is a total function and the source catches every exception
its calls raise) on a read timeout, a connection or OS error, an empty
line (EOF), bytes that are not valid UTF-8, and text that is not valid
JSON. -/
theorem c8_decode_errors (bs : List Nat) (cs : List Char) :
    read_msg .timeout = none ∧
    read_msg .connError = none ∧
    read_msg .osError = none ∧
    read_msg (.line []) = none ∧
    (utf8Decode bs = none → read_msg (.line bs) = none) ∧
    (utf8Decode bs = some cs → json_loads cs = none →
      read_msg (.line bs) = none) := by
  refine ⟨rfl, rfl, rfl, rfl, ?_, ?_⟩
  · intro h
    rw [read_msg]
    by_cases he : bs.isEmpty
    · rw [if_pos he]
    · rw [if_neg he, h]
  · intro h1 h2
    rw [read_msg]
    by_cases he : bs.isEmpty
    · rw [if_pos he]
    · rw [if_neg he, h1]
      exact h2

theorem c8_decode_errors_witness :
    read_msg (.line [255]) = none ∧
    read_msg (.line [116, 114, 117]) = none :=
  ⟨(c8_decode_errors [255] []).2.2.2.2.1 (by decide),
   (c8_decode_errors [116, 114, 117] ['t', 'r', 'u']).2.2.2.2.2
     (by decide) (by decide)⟩

/-- C10: the decoder does not require a frame to be a JSON object: the
line `5\n` (bytes 53, 10) decodes to the number 5, not `none`; the
server's per-connection read loop hands that non-object to `_process`,
and the peer client's listen loop carries it into its type dispatch —
neither treats it as "no message". -/
theorem c10_nonobject_passthrough :
    read_msg (.line [53, 10]) = some (.num 5) ∧
    isDict (.num 5) = false ∧
    handleClientStep (read_msg (.line [53, 10])) = .processMsg (.num 5) ∧
    listenStep (read_msg (.line [53, 10])) = .dispatch (.num 5) := by
  refine ⟨by decide, rfl, ?_, ?_⟩ <;> rw [show read_msg (.line [53, 10]) =
    some (.num 5) from by decide] <;> rfl

/-- C4 counterexample: a transport failure while sending the `hello`
frame — after the connection opened — makes `connect` return `false`
with the `connected` flag left `true`, contradicting the claim that
`connected` is false after any `connect` call that returned false. -/
theorem c4_counterexample :
    connect ⟨false, false, false⟩ (.opened true) =
      (false, ⟨true, true, true⟩) := rfl

/-- C4 amended: `connect` never raises (every transport failure is a
`false` return).  A failure while opening the connection — refused,
timed out, or unresolvable — leaves the state unchanged (so `connected`
stays false for a fresh client); but a failure while sending the hello
frame, after the connection opened, returns `false` with `connected`
already set to `true`. -/
theorem c4_amended (s : ClientState) :
    connect s .openFailed = (false, s) ∧
    connect s .openTimedOut = (false, s) ∧
    (connect s (.opened true)).1 = false ∧
    (connect s (.opened true)).2.connected = true ∧
    connect s (.opened false) = (true, ⟨true, true, true⟩) :=
  ⟨rfl, rfl, rfl, rfl, rfl⟩

/-- C6: `stop` is total (the source catches `TimeoutExpired` on wait
and `OSError` on close/unlink, so no error escapes) and idempotent:
after any `stop` the process handle is cleared (`is_running` false),
the control socket is closed, and the socket file is removed; a second
`stop` is a no-op (same final state and no further effects), and
`stop` on a bridge with no active session performs no process or
socket action at all. -/
theorem c6_stop_idempotent (s : PlayerState) (b b2 : Bool) :
    is_running (stop s b).1 = false ∧
    (stop s b).1.sockConnected = false ∧
    (stop s b).1.sockFileExists = false ∧
    stop (stop s b).1 b2 = ((stop s b).1, []) ∧
    stop ⟨none, false, false⟩ b = (⟨none, false, false⟩, []) := by
  refine ⟨?_, ?_, ?_, ?_, ?_⟩ <;> simp [stop, is_running]

/-- C7: when the engine process spawns but the control socket never
appears in any of the 30 polls, `play` returns false while leaving the
process handle in place — `is_running` stays true for the live
process; when the executable cannot be spawned at all, `play` returns
false immediately. -/
theorem c7_play_poll_failure (s : PlayerState) (f : Nat → Bool)
    (cOk b : Bool) (hf : (List.range 30).any f = false) :
    (play s true f cOk b).1 = false ∧
    (play s true f cOk b).2.proc = some .alive ∧
    is_running (play s true f cOk b).2 = true ∧
    (play s false f cOk b).1 = false := by
  rw [play, play]
  simp [hf, is_running]

theorem c7_play_poll_failure_witness :
    (play ⟨none, false, false⟩ true (fun _ => false) true true).1 = false ∧
    is_running (play ⟨none, false, false⟩ true (fun _ => false) true true).2 =
      true :=
  ⟨(c7_play_poll_failure ⟨none, false, false⟩ (fun _ => false) true true
      (by decide)).1,
   (c7_play_poll_failure ⟨none, false, false⟩ (fun _ => false) true true
      (by decide)).2.2.1⟩

/-- The validation `_process` actually performs on an `add` frame:
"type" equals "add" and "entry" is a dict containing both an "id" and
a "title" key — key presence only, the values (empty strings included)
are never inspected. -/
def validAdd (msg : List (List Char × Json)) : Bool :=
  match assocGet msg "entry".data with
  | some (.obj entry) =>
      decide (assocGet msg "type".data = some (.str "add".data)) &&
      hasKey entry "id".data && hasKey entry "title".data
  | _ => false

/-- C1 counterexample: an `add` whose entry carries EMPTY `id` and
`title` strings still triggers `on_add` and an `ack` — the source
checks only key presence (net.py line 90), never non-emptiness, so the
claim's "no on_add invocation and no ack for an empty id or title" is
false on the code. -/
theorem c1_counterexample :
    process true c1msg =
      .ok { onAddArg := some (.obj [("id".data, .str []), ("title".data, .str [])]),
            ackWritten := some (.obj [("type".data, .str "ack".data),
              ("title".data, .str [])]) } ∧
    pyTruthy (.str []) = false := by
  constructor
  · rfl
  · rfl

theorem validAdd_false_no_entry (msg : List (List Char × Json))
    (h : ∀ entry, assocGet msg "entry".data ≠ some (.obj entry)) :
    validAdd msg = false := by
  rw [validAdd]
  split
  · next entry heq => exact absurd heq (h entry)
  · rfl

/-- C1 amended: for every dict frame, `_process` invokes `on_add` (when
the callback is set) and writes back an `ack` carrying the entry's
stored title value if and only if the frame's type is "add" and its
entry is a dict containing both an `id` key and a `title` key — key
presence only; empty-string values are accepted.  On any other frame no
`on_add` call and no `ack` occur. -/
theorem c1_amended (msg : List (List Char × Json)) (onAddSet : Bool) :
    ∃ eff, process onAddSet (.obj msg) = .ok eff ∧
      eff.ackWritten.isSome = validAdd msg ∧
      eff.onAddArg.isSome = (validAdd msg && onAddSet) ∧
      (∀ entry, assocGet msg "entry".data = some (.obj entry) →
        validAdd msg = true →
        eff.onAddArg = (if onAddSet then some (.obj entry) else none) ∧
        eff.ackWritten = some (.obj [("type".data, .str "ack".data),
          ("title".data, (assocGet entry "title".data).getD (.str ['?']))])) := by
  rw [process]
  simp only [pyGet, bind, Except.bind]
  by_cases ht : assocGet msg "type".data = some (.str "add".data)
  · rw [if_pos ht]
    split
    · next entry heq =>
        by_cases hk : hasKey entry "id".data = true ∧ hasKey entry "title".data = true
        · rw [if_pos hk]
          refine ⟨_, rfl, ?_, ?_, ?_⟩
          · rw [validAdd, heq]
            simp [ht, hk.1, hk.2]
          · rw [validAdd, heq]
            cases onAddSet <;> simp [ht, hk.1, hk.2]
          · intro entry2 heq2 _
            rw [heq] at heq2
            injection heq2 with heq3
            injection heq3 with heq4
            subst heq4
            exact ⟨rfl, rfl⟩
        · rw [if_neg hk]
          refine ⟨⟨none, none⟩, rfl, ?_, ?_, ?_⟩
          · rw [validAdd, heq]
            simp only [Bool.and_eq_true, decide_eq_true_eq]
            simp only [Option.isSome_none]
            simp at hk
            by_cases h1 : hasKey entry "id".data = true
            · simp [h1, hk h1]
            · simp [h1]
          · rw [validAdd, heq]
            simp only [Option.isSome_none]
            simp at hk
            by_cases h1 : hasKey entry "id".data = true
            · simp [h1, hk h1]
            · simp [h1]
          · intro entry2 heq2 hv
            rw [validAdd, heq] at hv
            rw [heq] at heq2
            injection heq2 with heq3
            injection heq3 with heq4
            subst heq4
            simp at hv
            simp at hk
            exact absurd (hk hv.1.2) (by simp [hv.2])
    · next hne =>
        have hva : validAdd msg = false :=
          validAdd_false_no_entry msg (fun entry heq => hne entry heq)
        refine ⟨⟨none, none⟩, rfl, by simp [hva], by simp [hva], ?_⟩
        intro entry heq _
        exact absurd heq (fun h2 => hne entry h2)
  · rw [if_neg ht]
    refine ⟨⟨none, none⟩, rfl, ?_, ?_, ?_⟩
    · rw [validAdd]
      split
      · next entry heq => simp [ht]
      · rfl
    · rw [validAdd]
      split
      · next entry heq => simp [ht]
      · rfl
    · intro entry heq hv
      rw [validAdd, heq] at hv
      simp at hv
      exact absurd hv.1.1 ht

theorem c1_amended_witness :
    ∃ eff, process true (.obj [("type".data, Json.str "add".data),
      ("entry".data, Json.obj [("id".data, .str "x".data),
        ("title".data, .str "Song".data)])]) = .ok eff ∧
      eff.ackWritten = some (.obj [("type".data, .str "ack".data),
        ("title".data, .str "Song".data)]) := by
  obtain ⟨eff, h1, _, _, h4⟩ := c1_amended [("type".data, Json.str "add".data),
    ("entry".data, Json.obj [("id".data, .str "x".data),
      ("title".data, .str "Song".data)])] true
  refine ⟨eff, h1, ?_⟩
  have hc := h4 [("id".data, .str "x".data), ("title".data, .str "Song".data)]
    (by decide) (by decide)
  rw [hc.2]
  decide

/-- C2 counterexample: an engine response reporting success with value
0 for `volume` (a muted player) makes the accessor return the default
100, not the engine-reported value — Python `or` cannot distinguish a
falsy success value from "unavailable", so the claim that the accessor
returns the engine-reported data whenever the command succeeds is
false on the code. -/
theorem c2_counterexample :
    volume (some (.obj [("error".data, .str "success".data),
      ("data".data, .num 0)])) = .ok (.num 100) ∧
    get_property (some (.obj [("error".data, .str "success".data),
      ("data".data, .num 0)])) = .ok (some (.num 0)) :=
  ⟨by decide, by decide⟩

/-- C2 amended: each accessor returns the engine-reported value only
when the property read succeeds AND the value is truthy; the documented
default (0 position, 0 duration, false paused, 100 volume) is returned
when the session is not connected, the read times out or fails, the
engine reports failure, or the reported value is falsy (0, 0.0, false,
empty) — so a successful volume of 0 reads as 100. -/
theorem c2_amended (res : Option Json) :
    (res = none → get_property res = .ok none) ∧
    (get_property res = .ok none →
      position res = .ok (.num 0) ∧ duration res = .ok (.num 0) ∧
      paused res = .ok (.bool false) ∧ volume res = .ok (.num 100)) ∧
    (∀ v, get_property res = .ok (some v) → pyTruthy v = true →
      position res = .ok v ∧ duration res = .ok v ∧
      paused res = .ok v ∧ volume res = .ok v) ∧
    (∀ v, get_property res = .ok (some v) → pyTruthy v = false →
      position res = .ok (.num 0) ∧ duration res = .ok (.num 0) ∧
      paused res = .ok (.bool false) ∧ volume res = .ok (.num 100)) ∧
    (∀ kvs, res = some (.obj kvs) → pyTruthy (.obj kvs) = true →
      assocGet kvs "error".data = some (.str "success".data) →
      get_property res = .ok (assocGet kvs "data".data)) ∧
    (∀ kvs, res = some (.obj kvs) → pyTruthy (.obj kvs) = true →
      assocGet kvs "error".data ≠ some (.str "success".data) →
      get_property res = .ok none) := by
  refine ⟨?_, ?_, ?_, ?_, ?_, ?_⟩
  · intro h
    subst h
    rfl
  · intro h
    refine ⟨?_, ?_, ?_, ?_⟩ <;> simp [position, duration, paused, volume, pyOr, h]
  · intro v h hv
    refine ⟨?_, ?_, ?_, ?_⟩ <;>
      simp [position, duration, paused, volume, pyOr, h, hv]
  · intro v h hv
    refine ⟨?_, ?_, ?_, ?_⟩ <;>
      simp [position, duration, paused, volume, pyOr, h, hv]
  · intro kvs h hv hsucc
    subst h
    rw [get_property]
    simp [hv, hsucc]
  · intro kvs h hv hsucc
    subst h
    rw [get_property]
    simp [hv, hsucc]

theorem c2_amended_witness :
    position (some (.obj [("error".data, .str "success".data),
      ("data".data, .num 7)])) = .ok (.num 7) :=
  ((c2_amended (some (.obj [("error".data, .str "success".data),
    ("data".data, .num 7)]))).2.2.1 (.num 7) (by decide) (by decide)).1

theorem length_filter_split (l : List Conn) :
    (l.filter (fun c => !c.writeFails)).length +
      (l.filter (fun c => c.writeFails)).length = l.length := by
  induction l with
  | nil => rfl
  | cons c cs ih =>
      cases hcf : c.writeFails <;> simp [List.filter, hcf] <;> omega

theorem broadcast_written_length (l : List Conn) (data : List Nat) :
    ((l.map (fun c => if c.writeFails then c
        else { c with received := c.received ++ [data] })).filter
      (fun c => !c.writeFails)).length =
    (l.filter (fun c => !c.writeFails)).length := by
  induction l with
  | nil => rfl
  | cons c cs ih =>
      cases hcf : c.writeFails <;> simp [List.filter, hcf] <;> simp [ih]

/-- C5: `broadcast` encodes the message once, writes those identical
bytes to every connection registered at the start of the pass, and
prunes a failed connection only after the whole pass (the event trace
is all writes followed by all prunes); when exactly one of the N
registered connections fails, `client_count` afterwards is N − 1 and
every surviving connection has received the same encoded bytes. -/
theorem c5_broadcast (clients : List Conn) (msg : Json)
    (hone : (clients.filter (fun c => c.writeFails)).length = 1) :
    client_count (broadcast clients msg) = clients.length - 1 ∧
    (∀ c ∈ clients, c.writeFails = false →
      { c with received := c.received ++ [encode_msg msg] } ∈
        broadcast clients msg) ∧
    (∀ cid data, BEvent.wrote cid data ∈ broadcastTrace clients msg →
      data = encode_msg msg) ∧
    (∃ w p, broadcastTrace clients msg = w ++ p ∧
      (∀ cid, BEvent.pruned cid ∉ w) ∧
      (∀ e ∈ p, ∃ cid, e = BEvent.pruned cid)) := by
  have hne : clients.isEmpty = false := by
    cases clients with
    | nil => simp at hone
    | cons c cs => rfl
  refine ⟨?_, ?_, ?_, ?_⟩
  · rw [client_count, broadcast, if_neg (by simp [hne])]
    rw [broadcast_written_length]
    have := length_filter_split clients
    omega
  · intro c hc hf
    rw [broadcast, if_neg (by simp [hne])]
    refine List.mem_filter.mpr ⟨List.mem_map.mpr ⟨c, hc, by simp [hf]⟩, by simp [hf]⟩
  · intro cid data hmem
    rw [broadcastTrace, if_neg (by simp [hne])] at hmem
    rcases List.mem_append.mp hmem with h | h
    · obtain ⟨c, _, heq⟩ := List.mem_map.mp h
      by_cases hcf : c.writeFails
      · rw [if_pos hcf] at heq
        exact absurd heq (by simp)
      · rw [if_neg hcf] at heq
        injection heq with h1 h2
        exact h2.symm
    · obtain ⟨c, _, heq⟩ := List.mem_map.mp h
      exact absurd heq (by simp)
  · refine ⟨clients.map (fun c => if c.writeFails then BEvent.writeFailed c.cid
      else BEvent.wrote c.cid (encode_msg msg)),
      (clients.filter (fun c => c.writeFails)).map (fun c => BEvent.pruned c.cid),
      ?_, ?_, ?_⟩
    · rw [broadcastTrace, if_neg (by simp [hne])]
    · intro cid hmem
      obtain ⟨c, _, heq⟩ := List.mem_map.mp hmem
      by_cases hcf : c.writeFails
      · rw [if_pos hcf] at heq
        exact absurd heq (by simp)
      · rw [if_neg hcf] at heq
        exact absurd heq (by simp)
    · intro e hmem
      obtain ⟨c, _, heq⟩ := List.mem_map.mp hmem
      exact ⟨c.cid, heq.symm⟩

theorem c5_broadcast_witness :
    client_count (broadcast [⟨0, false, []⟩, ⟨1, true, []⟩, ⟨2, false, []⟩]
      Json.null) = 2 := by
  have h := (c5_broadcast [⟨0, false, []⟩, ⟨1, true, []⟩, ⟨2, false, []⟩]
    Json.null (by decide)).1
  simpa using h

/-- C9 counterexample: under the per-call lock a first caller issues
`get_property playback-time`, its 0.2-second read times out before the
engine's response (value 42) arrives, and it returns `None`; the next
caller issues `get_property duration` and the first non-event line it
reads is the STALE playback-time response — it receives the other
caller's response (and its data value 42) as its own answer, refuting
the claim that concurrent callers never observe each other's
response. -/
theorem c9_counterexample :
    (commandCall true [] 0 respPos).1 = none ∧
    (commandCall true (commandCall true [] 0 respPos).2 2 respDur).1 =
      some respPos ∧
    get_property (commandCall true (commandCall true [] 0 respPos).2 2
      respDur).1 = .ok (some (.num 42)) ∧
    respPos ≠ respDur := by
  refine ⟨by decide, by decide, by decide, by decide⟩

theorem commandRead_skips_events (evs : List Json) (resp : Json)
    (hevs : ∀ e ∈ evs, hasEventKey e = true)
    (hresp : hasEventKey resp = false) :
    commandRead (evs.length + 1) (evs ++ [resp]) = (some resp, []) := by
  induction evs with
  | nil =>
      rw [List.nil_append, commandRead, hresp]
      rfl
  | cons e es ih =>
      rw [List.cons_append]
      rw [show (e :: es).length + 1 = (es.length + 1) + 1 from by simp]
      rw [commandRead, hevs e (by simp)]
      simp only [if_true]
      exact ih (fun d hd => hevs d (by simp [hd]))

/-- C9 amended: the lock makes command calls strictly sequential (at
most one in flight), and a call that starts with no stale response in
the socket — only event notifications — receives exactly its own
response, with every notification skipped; with no socket the call
returns `None`.  But a command whose response arrives after its read
deadline leaves that response in the socket, and the NEXT caller
receives it (see the counterexample). -/
theorem c9_amended (evs : List Json) (resp : Json)
    (hevs : ∀ e ∈ evs, hasEventKey e = true)
    (hresp : hasEventKey resp = false) :
    commandCall true evs (evs.length + 1) resp = (some resp, []) ∧
    commandCall false evs (evs.length + 1) resp = (none, evs) := by
  constructor
  · rw [commandCall]
    simp only [Bool.not_true, Bool.false_eq_true, if_false]
    exact commandRead_skips_events evs resp hevs hresp
  · rfl

theorem c9_amended_witness :
    commandCall true [] 1 respDur = (some respDur, []) :=
  (c9_amended [] respDur (by simp) (by decide)).1
